import Mathlib

/-!
Verification development for the media relocation tool (relocate_files.py).

The Python source is shallowly embedded: strings are lists of characters,
the regular expressions of the source are embedded as terms of a small
backtracking matcher that mirrors the semantics of the Python `re` module
on the character classes the program uses, and the filesystem-touching
parts (move executor, cleanup sweep) are modelled as explicit state
passing over a finite file table together with an oracle environment that
abstracts the behaviour of the operating-system primitives (rename
outcome, copy failure, progress-callback behaviour).

Modelling notes, stated once here:
 - paths use the forward slash as separator, and `os.path.abspath` is an
   oracle of the environment (identity in concrete instances);
 - the Python word / space / digit character classes are modelled over
   ASCII plus the Latin-1 letters, which covers every character the
   program manipulates;
 - `str.lower` is modelled on ASCII plus Latin-1.
-/

/-- Python strings are modelled as lists of characters. -/
abbrev Str := List Char

/-- Coerce a Lean string literal to the character-list model. -/
def pystr (s : String) : Str := s.data

/-- Numeric value of a run of decimal digits, as Python `int` does. -/
def natOfDigits (l : Str) : Nat := l.foldl (fun a c => a * 10 + (c.toNat - 48)) 0

/-- ASCII decimal digit, the `\d` class on the inputs of this program. -/
def isPyDigit (c : Char) : Bool := 48 ≤ c.toNat && c.toNat ≤ 57

/-- Python `\s` on the inputs of this program: space and the ASCII control whitespace. -/
def isPySpace (c : Char) : Bool := c = ' ' || (9 ≤ c.toNat && c.toNat ≤ 13)

/-- ASCII alphanumeric character. -/
def isAsciiAlnum (c : Char) : Bool :=
  (65 ≤ c.toNat && c.toNat ≤ 90) || (97 ≤ c.toNat && c.toNat ≤ 122) || isPyDigit c

/-- Python `\w` over ASCII plus the Latin-1 letters. -/
def isWordChar (c : Char) : Bool :=
  isAsciiAlnum c || c = '_' ||
    (0xC0 ≤ c.toNat && c.toNat ≤ 0xFF && c.toNat ≠ 0xD7 && c.toNat ≠ 0xF7)

/-- Python `str.lower` on one character (ASCII plus Latin-1). -/
def py_lower_char (c : Char) : Char :=
  if (65 ≤ c.toNat && c.toNat ≤ 90) || (0xC0 ≤ c.toNat && c.toNat ≤ 0xDE && c.toNat ≠ 0xD7)
  then Char.ofNat (c.toNat + 32) else c

/-- Python `str.upper` on one character (ASCII plus Latin-1). -/
def py_upper_char (c : Char) : Char :=
  if (97 ≤ c.toNat && c.toNat ≤ 122) || (0xE0 ≤ c.toNat && c.toNat ≤ 0xFE && c.toNat ≠ 0xF7)
  then Char.ofNat (c.toNat - 32) else c

/-- Python `str.lower`. -/
def py_lower (s : Str) : Str := s.map py_lower_char

/-- Python `str.upper`. -/
def py_upper (s : Str) : Str := s.map py_upper_char

/-- Python `str.strip()` (whitespace on both ends). -/
def py_strip (s : Str) : Str :=
  ((s.dropWhile isPySpace).reverse.dropWhile isPySpace).reverse

/-- Python `str.strip(chars)` for an explicit character set. -/
def py_strip_chars (s : Str) (cs : List Char) : Str :=
  ((s.dropWhile (cs.contains ·)).reverse.dropWhile (cs.contains ·)).reverse

/-- The `os.path.basename` with the slash separator: text after the last slash. -/
def pyBasename (p : Str) : Str := (p.reverse.takeWhile (· ≠ '/')).reverse

/-- The `os.path.dirname` (POSIX): text before the last slash, trailing slashes
stripped unless the result is all slashes. -/
def pyDirname (p : Str) : Str :=
  let pre := (p.reverse.dropWhile (· ≠ '/')).reverse
  if pre = [] then []
  else if pre.all (· = '/') then pre
  else (pre.reverse.dropWhile (· = '/')).reverse

/-- Split a name at its last dot; the extension keeps the dot. -/
def lastDotSplit (nm : Str) : Option (Str × Str) :=
  let revnm := nm.reverse
  let revExt := revnm.takeWhile (· ≠ '.')
  if revExt.length = nm.length then none
  else some ((revnm.drop (revExt.length + 1)).reverse, '.' :: revExt.reverse)

/-- The `os.path.splitext` (POSIX): split at the last dot of the base name,
with leading dots of the base name never starting an extension. -/
def py_splitext (p : Str) : Str × Str :=
  let nm := pyBasename p
  let dir := p.take (p.length - nm.length)
  let lead := nm.takeWhile (· = '.')
  let rest := nm.drop lead.length
  match lastDotSplit rest with
  | some (root, ext) => (dir ++ lead ++ root, ext)
  | none => (p, [])

/-- The `os.path.join` of two components (POSIX). -/
def pyJoin2 (a b : Str) : Str :=
  if b.head? = some '/' then b
  else if a = [] then b
  else if a.getLast? = some '/' then a ++ b
  else a ++ '/' :: b

/-- The `os.path.join` of a component list. -/
def pyJoin : List Str → Str
  | [] => []
  | x :: xs => xs.foldl pyJoin2 x

/-- Python `str.partition(".")`: text before the first dot, and the rest
when a dot is present. -/
def partitionDot (s : Str) : Str × Option Str :=
  let pre := s.takeWhile (· ≠ '.')
  if pre.length = s.length then (s, none) else (pre, some (s.drop (pre.length + 1)))

/-- Decimal digits of a natural number. -/
def natDigits (n : Nat) : Str := (toString n).data

/-- The Python format `{n:02d}`: zero-padded to at least two digits. -/
def pad2 (n : Nat) : Str := if n < 10 then '0' :: natDigits n else natDigits n

/-- Python truthy `or` on strings: the left operand unless it is empty. -/
def str_or (a b : Str) : Str := if a = [] then b else a

/-! ### A small backtracking regular-expression matcher

The matcher mirrors the leftmost, priority-ordered backtracking semantics
of the Python `re` module on the constructs the source uses: character
classes, greedy and lazy bounded repetition, groups, alternation, the
anchors, and the word boundary.  Recursion is made structural with a fuel
argument that bounds the nesting depth of the search.
-/

/-- One atom of a character class. -/
inductive CAtom where
  | lit (c : Char)
  | lici (c : Char)
  | rng (lo hi : Char)
  | dcls
  | scls
deriving DecidableEq, Repr

/-- Does a character match one class atom? -/
def catomMem (c : Char) : CAtom → Bool
  | .lit d => c = d
  | .lici d => py_lower_char c = py_lower_char d
  | .rng lo hi => lo.toNat ≤ c.toNat && c.toNat ≤ hi.toNat
  | .dcls => isPyDigit c
  | .scls => isPySpace c

/-- Regular expressions, as used by the source patterns. -/
inductive RE where
  | eps
  | sym (neg : Bool) (atoms : List CAtom)
  | cat (a b : RE)
  | alt (a b : RE)
  | rep (a : RE) (lo : Nat) (hi : Option Nat) (lzy : Bool)
  | grp (n : Nat) (a : RE)
  | bos
  | eosD
  | wb
deriving Repr

/-- Membership in a (possibly negated) character class. -/
def clsMem (neg : Bool) (atoms : List CAtom) (c : Char) : Bool :=
  (atoms.any (catomMem c)) != neg

/-- Captured group spans: group index, start, end. -/
abbrev Caps := List (Nat × Nat × Nat)

/-- Is the character at position `i` a word character (`false` out of range)? -/
def wordAt (inp : Str) (i : Nat) : Bool :=
  match inp.get? i with
  | some c => isWordChar c
  | none => false

/-- The backtracking matcher in continuation style.  The continuation
receives the position after the sub-match together with the captures so
far; alternatives are tried in the priority order of the Python engine. -/
def mrun (inp : Str) : Nat → RE → Nat → Caps →
    (Nat → Caps → Option (Nat × Caps)) → Option (Nat × Caps)
  | 0, _, _, _, _ => none
  | f + 1, re, pos, caps, k =>
    match re with
    | .eps => k pos caps
    | .sym neg atoms =>
      match inp.get? pos with
      | some c => if clsMem neg atoms c then k (pos + 1) caps else none
      | none => none
    | .cat a b => mrun inp f a pos caps (fun p c => mrun inp f b p c k)
    | .alt a b =>
      match mrun inp f a pos caps k with
      | some r => some r
      | none => mrun inp f b pos caps k
    | .rep a lo hi lzy =>
      if lo > 0 then
        mrun inp f a pos caps
          (fun p c => mrun inp f (.rep a (lo - 1) (hi.map (· - 1)) lzy) p c k)
      else
        match hi with
        | some 0 => k pos caps
        | _ =>
          let more := fun (_ : Unit) =>
            mrun inp f a pos caps
              (fun p c =>
                if p = pos then none
                else mrun inp f (.rep a 0 (hi.map (· - 1)) lzy) p c k)
          if lzy then
            match k pos caps with
            | some r => some r
            | none => more ()
          else
            match more () with
            | some r => some r
            | none => k pos caps
    | .grp n a => mrun inp f a pos caps (fun p c => k p ((n, pos, p) :: c))
    | .bos => if pos = 0 then k pos caps else none
    | .eosD =>
      if pos = inp.length || (pos + 1 = inp.length && inp.get? pos = some '\n')
      then k pos caps else none
    | .wb =>
      let prev := if pos = 0 then false else wordAt inp (pos - 1)
      if prev != wordAt inp pos then k pos caps else none

/-- Fuel bound for one anchored match attempt. -/
def mfuel (inp : Str) : Nat := 2000 + 80 * inp.length

/-- The `pattern.match(s)`: an anchored attempt at position 0, giving the end
position of the whole match and the captures. -/
def reMatch (re : RE) (inp : Str) : Option (Nat × Caps) :=
  mrun inp (mfuel inp) re 0 [] (fun p c => some (p, c))

/-- Scan for the leftmost match at or after a position. -/
def reSearchGo (re : RE) (inp : Str) : Nat → Nat → Option (Nat × Nat × Caps)
  | 0, _ => none
  | f + 1, i =>
    match mrun inp (mfuel inp) re i [] (fun p c => some (p, c)) with
    | some (e, caps) => some (i, e, caps)
    | none => if inp.length ≤ i then none else reSearchGo re inp f (i + 1)

/-- The `pattern.search(s, pos)`: leftmost match from `pos`, giving start,
end and captures. -/
def reSearchFrom (re : RE) (inp : Str) (pos : Nat) : Option (Nat × Nat × Caps) :=
  reSearchGo re inp (inp.length + 1 - pos) pos

/-- The `pattern.search(s)`. -/
def reSearch (re : RE) (inp : Str) : Option (Nat × Nat × Caps) :=
  reSearchFrom re inp 0

/-- Text of a captured group (empty when the group is absent). -/
def capStr (inp : Str) (caps : Caps) (n : Nat) : Str :=
  match (caps.find? (fun e => e.1 = n)).map (·.2) with
  | some (s, e) => (inp.drop s).take (e - s)
  | none => []

/-- Worker for `re.sub`: replace every non-overlapping match, scanning
left to right, advancing one character over an empty match. -/
def reSubGo (re : RE) (repl : Str) (inp : Str) : Nat → Nat → Str → Str
  | 0, pos, acc => acc ++ inp.drop pos
  | f + 1, pos, acc =>
    match reSearchFrom re inp pos with
    | none => acc ++ inp.drop pos
    | some (i, e, _) =>
      let pre := (inp.drop pos).take (i - pos)
      if e = i then
        match inp.get? i with
        | some c => reSubGo re repl inp f (i + 1) (acc ++ pre ++ repl ++ [c])
        | none => acc ++ pre ++ repl
      else reSubGo re repl inp f e (acc ++ pre ++ repl)

/-- The `re.sub(pattern, repl, s)` with a constant replacement. -/
def reSubAll (re : RE) (repl : Str) (inp : Str) : Str :=
  reSubGo re repl inp (inp.length + 2) 0 []

/-- The part of a string before its leftmost match, the head of
`re.split(pattern, s, maxsplit=1)`. -/
def splitFirstBefore (re : RE) (inp : Str) : Str :=
  match reSearch re inp with
  | some (i, _, _) => inp.take i
  | none => inp

/-! Smart constructors for writing the source patterns. -/

/-- Concatenation of a pattern list. -/
def rcat : List RE → RE
  | [] => .eps
  | [r] => r
  | r :: rest => .cat r (rcat rest)

/-- Alternation of a pattern list, tried in order. -/
def ralts : List RE → RE
  | [] => .eps
  | [r] => r
  | r :: rest => .alt r (ralts rest)

/-- A literal character. -/
def rlit (c : Char) : RE := .sym false [.lit c]

/-- A case-insensitive literal character. -/
def rci (c : Char) : RE := .sym false [.lici c]

/-- A case-sensitive literal word. -/
def rstrL (s : String) : RE := rcat (s.data.map rlit)

/-- A case-insensitive literal word. -/
def rstrCI (s : String) : RE := rcat (s.data.map rci)

/-- The dot: any character except the newline. -/
def rdot : RE := .sym true [.lit '\n']

/-- The `\s*`. -/
def ws0 : RE := .rep (.sym false [.scls]) 0 none false

/-- The `\s+`. -/
def ws1 : RE := .rep (.sym false [.scls]) 1 none false

/-- The `\d{lo,hi}`, greedy. -/
def rdigits (lo hi : Nat) : RE := .rep (.sym false [.dcls]) lo (some hi) false

/-! ### The patterns of the source, one term per Python pattern -/

/-- One bracketed or parenthesized release tag: `\[[^\]]*\]|\([^\)]*\)`. -/
def TAG_GROUP : RE :=
  .alt (rcat [rlit '[', .rep (.sym true [.lit ']']) 0 none false, rlit ']'])
       (rcat [rlit '(', .rep (.sym true [.lit ')']) 0 none false, rlit ')'])

/-- The `\s*(?:\[[^\]]*\]|\([^\)]*\))\s*$`, the trailing-tag stripper. -/
def TAG_END : RE := rcat [ws0, TAG_GROUP, ws0, .eosD]

/-- The `\s*[–—]\s*`, the dash normalizer of `strip_release_tags`. -/
def DASH_NORM : RE := rcat [ws0, .sym false [.lit '–', .lit '—'], ws0]

/-- The `\s+`. -/
def WSP : RE := ws1

/-- The `\s*[-–—]\s*$`, the trailing-dash stripper of `beautify_spaces`. -/
def TRAIL_DASH : RE := rcat [ws0, .sym false [.lit '-', .lit '–', .lit '—'], ws0, .eosD]

/-- The `FALLBACK_NUMBERED_TITLE`:
`^\s*(?P<franchise>.+?)\s+(?P<num>\d{1,3})\s*[\-–—]\s*(?P<title>[^\[\(]+?)\s*(?:\[[^\]]*\]|\([^\)]*\))*\s*$`
with groups franchise=1, num=2, title=3. -/
def FALLBACK_NUMBERED_TITLE : RE :=
  rcat [.bos, ws0,
        .grp 1 (.rep rdot 1 none true),
        ws1,
        .grp 2 (rdigits 1 3),
        ws0, .sym false [.lit '-', .lit '–', .lit '—'], ws0,
        .grp 3 (.rep (.sym true [.lit '[', .lit '(']) 1 none true),
        ws0, .rep TAG_GROUP 0 none false, ws0, .eosD]

/-- The separator class `[\s._\-]`. -/
def sepCls : RE := .sym false [.scls, .lit '.', .lit '_', .lit '-']

/-- The `SERIES_WITH_TITLE[0]`:
`^\s*(?P<title>.+?)[\s._\-]*S(?P<s>\d{1,2})E(?P<e>\d{1,3})\b` (ignore case),
groups title=1, s=2, e=3. -/
def SWT1 : RE :=
  rcat [.bos, ws0, .grp 1 (.rep rdot 1 none true), .rep sepCls 0 none false,
        rci 'S', .grp 2 (rdigits 1 2), rci 'E', .grp 3 (rdigits 1 3), .wb]

/-- The `SERIES_WITH_TITLE[1]`:
`^\s*(?P<title>.+?)[\s._\-]*(?P<s>\d{1,2})x(?P<e>\d{1,3})\b` (ignore case),
groups title=1, s=2, e=3. -/
def SWT2 : RE :=
  rcat [.bos, ws0, .grp 1 (.rep rdot 1 none true), .rep sepCls 0 none false,
        .grp 2 (rdigits 1 2), rci 'x', .grp 3 (rdigits 1 3), .wb]

/-- The ASCII alphanumeric atoms `A-Za-z0-9`. -/
def alnumAtoms : List CAtom := [.rng 'A' 'Z', .rng 'a' 'z', .rng '0' '9']

/-- The `PATTERN_SxxEyy`:
`(?i)(?:^|[^A-Za-z0-9])S(?P<s>\d{1,2})E(?P<e>\d{1,3})(?:[^A-Za-z0-9]|$)`,
groups s=1, e=2. -/
def PATTERN_SxxEyy : RE :=
  rcat [.alt .bos (.sym true alnumAtoms),
        rci 'S', .grp 1 (rdigits 1 2), rci 'E', .grp 2 (rdigits 1 3),
        .alt (.sym true alnumAtoms) .eosD]

/-- The `PATTERN_NxM`:
`(?i)(?:^|[^A-Za-z0-9])(?P<s>\d{1,2})x(?P<e>\d{1,3})(?:[^A-Za-z0-9]|$)`,
groups s=1, e=2. -/
def PATTERN_NxM : RE :=
  rcat [.alt .bos (.sym true alnumAtoms),
        .grp 1 (rdigits 1 2), rci 'x', .grp 2 (rdigits 1 3),
        .alt (.sym true alnumAtoms) .eosD]

/-- The season-episode token `S?\s*\d{1,2}\s*[xE]\s*\d{1,3}` of
`clean_episode_title` (ignore case). -/
def seTok : RE :=
  rcat [.rep (rci 'S') 0 (some 1) false, ws0, rdigits 1 2, ws0,
        .sym false [.lici 'x', .lici 'e'], ws0, rdigits 1 3]

/-- The `^[\s.\-_:–—]+`, the leading-separator stripper of `clean_episode_title`. -/
def CLEAN_LEAD : RE :=
  rcat [.bos,
        .rep (.sym false [.scls, .lit '.', .lit '-', .lit '_', .lit ':', .lit '–', .lit '—'])
          1 none false]

/-- The `(?i)^(S?\s*\d{1,2}\s*[xE]\s*\d{1,3})(?:\s*[-_.])?\s*`. -/
def CLEAN_TOK_LEAD : RE :=
  rcat [.bos, .grp 1 seTok,
        .rep (rcat [ws0, .sym false [.lit '-', .lit '_', .lit '.']]) 0 (some 1) false,
        ws0]

/-- The `(?i)\s*(?:[-_.])?\s*(S?\s*\d{1,2}\s*[xE]\s*\d{1,3})\s*$`. -/
def CLEAN_TOK_TRAIL : RE :=
  rcat [ws0, .rep (.sym false [.lit '-', .lit '_', .lit '.']) 0 (some 1) false,
        ws0, .grp 1 seTok, ws0, .eosD]

/-- The `^(?P<title>.+?)\s*-\s*Temporada\b` (ignore case), group title=1. -/
def PARENT_TEMPORADA : RE :=
  rcat [.bos, .grp 1 (.rep rdot 1 none true), ws0, rlit '-', ws0,
        rstrCI "Temporada", .wb]

/-- The `\b(Temporada|Completa|DVDRip|HDTV|WEB[- ]?DL|BluRay)\b.*$` (ignore case). -/
def PARENT_JUNK : RE :=
  rcat [.wb,
        .grp 1 (ralts [rstrCI "Temporada", rstrCI "Completa", rstrCI "DVDRip",
                       rstrCI "HDTV",
                       rcat [rstrCI "WEB", .rep (.sym false [.lit '-', .lit ' ']) 0 (some 1) false,
                             rstrCI "DL"],
                       rstrCI "BluRay"]),
        .wb, .rep rdot 0 none false, .eosD]

/-- The `[\s._\-]+$`, the trailing-separator stripper of the series prefix. -/
def TRAIL_SEP : RE := rcat [.rep sepCls 1 none false, .eosD]

/-- The `\bTemporada\b` (ignore case), the split pattern of the series title. -/
def TEMPORADA_WORD : RE := rcat [.wb, rstrCI "Temporada", .wb]

/-- The `SAMPLE_PATTERNS`: `(sample|trailer|\b(rarbg|yts|ettv|eztv)\b)` (ignore case). -/
def SAMPLE_PATTERNS : RE :=
  .grp 1 (ralts [rstrCI "sample", rstrCI "trailer",
                 rcat [.wb, .grp 2 (ralts [rstrCI "rarbg", rstrCI "yts",
                                           rstrCI "ettv", rstrCI "eztv"]), .wb]])

/-! ### Config constants of the source -/

/-- The `VIDEO_EXTS`. -/
def VIDEO_EXTS : List Str :=
  [pystr ".avi", pystr ".mkv", pystr ".mp4", pystr ".mov", pystr ".wmv", pystr ".flv"]

/-- The `COMPANION_EXTS`. -/
def COMPANION_EXTS : List Str :=
  [pystr ".srt", pystr ".sub", pystr ".idx", pystr ".nfo", pystr ".jpg",
   pystr ".jpeg", pystr ".png", pystr ".txt"]

/-- The `INVALID_WIN_CHARS`. -/
def INVALID_WIN_CHARS : List Char := ['<', '>', ':', '"', '/', '\\', '|', '?', '*']

/-- The `INVALID_WIN_NAMES`. -/
def INVALID_WIN_NAMES : List Str :=
  [pystr "CON", pystr "PRN", pystr "AUX", pystr "NUL",
   pystr "COM1", pystr "COM2", pystr "COM3", pystr "COM4", pystr "COM5",
   pystr "COM6", pystr "COM7", pystr "COM8", pystr "COM9",
   pystr "LPT1", pystr "LPT2", pystr "LPT3", pystr "LPT4", pystr "LPT5",
   pystr "LPT6", pystr "LPT7", pystr "LPT8", pystr "LPT9"]

/-! ### Utility functions of the source -/

/-- The `beautify_spaces`: separators to spaces, drop one trailing dash
clause, collapse whitespace, strip. -/
def beautify_spaces (text : Str) : Str :=
  let t := text.map (fun c => if c = '_' || c = '.' then ' ' else c)
  let t := reSubAll TRAIL_DASH [] t
  let t := reSubAll WSP (pystr " ") t
  py_strip t

/-- The `sanitize_filename`: map Windows-invalid characters to underscores,
collapse whitespace, and prefix reserved device names. -/
def sanitize_filename (name : Str) : Str :=
  let name := name.map (fun c => if INVALID_WIN_CHARS.contains c then '_' else c)
  let name := py_strip (reSubAll WSP (pystr " ") name)
  let (base, rest) := partitionDot name
  let base := if INVALID_WIN_NAMES.contains (py_upper base) then '_' :: base else base
  match rest with
  | some r => base ++ '.' :: r
  | none => base

/-- The trailing-tag removal loop of `strip_release_tags`, run to a fixed
point (the fuel is one more than the length, enough since every effective
pass shortens the string). -/
def stripTagsLoop : Nat → Str → Str
  | 0, s => s
  | f + 1, s =>
    let n := reSubAll TAG_END [] s
    if n = s then s else stripTagsLoop f n

/-- The `strip_release_tags`. -/
def strip_release_tags (stem : Str) : Str :=
  let s := stripTagsLoop (stem.length + 1) stem
  let s := reSubAll DASH_NORM (pystr " - ") s
  let s := reSubAll WSP (pystr " ") s
  py_strip_chars s [' ', '-']

/-- The `_safe_int`: the first run of digits of the argument, else the default.
The argument is the `str()` rendering of the Python value. -/
def safe_int (v : Str) (dflt : Option Nat) : Option Nat :=
  let tail := v.dropWhile (fun c => !isPyDigit c)
  if tail = [] then dflt else some (natOfDigits (tail.takeWhile isPyDigit))

/-- Python `x or 1` over the result of `_safe_int`: `None` and `0` both
collapse to 1. -/
def or_one (x : Option Nat) : Nat :=
  match x with
  | some n => if n = 0 then 1 else n
  | none => 1

/-- The `str()` of an optional value fed to `_safe_int`: missing dict
values arrive as the string `None`. -/
def optStr (o : Option Str) : Str := o.getD (pystr "None")

/-- The `clean_episode_title`. -/
def clean_episode_title (s : Str) : Str :=
  let s := reSubAll CLEAN_LEAD [] s
  let s := reSubAll CLEAN_TOK_LEAD [] s
  let s := reSubAll CLEAN_TOK_TRAIL [] s
  let s := strip_release_tags s
  beautify_spaces s

/-- The `ep_title_from_match`: the cleaned text after the end of the match. -/
def ep_title_from_match (cleaned_stem : Str) (endPos : Nat) : Str :=
  clean_episode_title (cleaned_stem.drop endPos)

/-- The `guess_show_from_parent_dir`. -/
def guess_show_from_parent_dir (src_path : Str) : Option Str :=
  let parent := pyBasename (pyDirname src_path)
  let parent := beautify_spaces (strip_release_tags parent)
  match reSearch PARENT_TEMPORADA parent with
  | some (_, _, caps) =>
    some (sanitize_filename (beautify_spaces (capStr parent caps 1)))
  | none =>
    let parent := py_strip_chars (reSubAll PARENT_JUNK [] parent) [' ', '-']
    if parent = [] then none else some (sanitize_filename parent)

/-- Python `a or b or c` where `a`, `c` are strings and `b` is optional:
the first truthy (non-empty, non-`None`) value. -/
def py_or3 (a : Str) (b : Option Str) (c : Str) : Str :=
  if a ≠ [] then a
  else match b with
       | some s => if s ≠ [] then s else c
       | none => c

/-- Python `a or b` where `a` is optional. -/
def py_or_opt (a : Option Str) (b : Str) : Str :=
  match a with
  | some s => if s ≠ [] then s else b
  | none => b

/-! ### The data model and the classification chain -/

/-- The `MediaItem`, the planned-item record of the source. -/
structure MediaItem where
  src_path : Str
  content_type : Str
  show_title : Option Str
  season : Option Nat
  episodes : Option (List Nat)
  dst_filename : Str
  dst_dir : Str
  dst_path : Str
deriving DecidableEq, Repr

/-- Output shape of the optional `PTN.parse` capability; each numeric
field carries its `str()` rendering, `none` meaning an absent key. -/
structure PtnInfo where
  title : Option Str
  season : Option Str
  episode : Option Str
  episodeName : Option Str
  episode_name : Option Str
  episode_title : Option Str
deriving Repr

/-- Output shape of the optional `guessit` capability. -/
structure GuessitInfo where
  gtype : Option Str
  title : Option Str
  season : Option Str
  episode_list : Option (List Str)
  episode : Option Str
  episode_title : Option Str
  year : Option Nat
deriving Repr

/-- Try the `SERIES_WITH_TITLE` patterns in order with an anchored match. -/
def firstSwtMatch (inp : Str) : Option (Nat × Caps) :=
  match reMatch SWT1 inp with
  | some r => some r
  | none => reMatch SWT2 inp

/-- The `PATTERN_SxxEyy.search(s) or PATTERN_NxM.search(s)`. -/
def firstAnySearch (inp : Str) : Option (Nat × Nat × Caps) :=
  match reSearch PATTERN_SxxEyy inp with
  | some r => some r
  | none => reSearch PATTERN_NxM inp

/-- The movie branch for `Franquicia NN - Título` stems. -/
def try_franchise (cleaned_stem ext dst_root src_path : Str) : Option MediaItem :=
  match reMatch FALLBACK_NUMBERED_TITLE cleaned_stem with
  | none => none
  | some (_, caps) =>
    let franchise := beautify_spaces (capStr cleaned_stem caps 1)
    let num := or_one (safe_int (capStr cleaned_stem caps 2) (some 1))
    let title_part := beautify_spaces (capStr cleaned_stem caps 3)
    let final_title :=
      sanitize_filename (franchise ++ ' ' :: pad2 num ++ pystr " - " ++ title_part)
    let dst_dir := pyJoin2 dst_root (pystr "Películas")
    let dst_name := sanitize_filename (final_title ++ ext)
    some ⟨src_path, pystr "movie", none, none, none, dst_name, dst_dir,
          pyJoin2 dst_dir dst_name⟩

/-- The series branch for stems with a leading title followed by the
season-episode token. -/
def try_series_with_title (cleaned_stem src_path ext dst_root : Str) : Option MediaItem :=
  match firstSwtMatch cleaned_stem with
  | none => none
  | some (endPos, caps) =>
    let season := or_one (safe_int (capStr cleaned_stem caps 2) (some 1))
    let episode := or_one (safe_int (capStr cleaned_stem caps 3) (some 1))
    let raw_title := capStr cleaned_stem caps 1
    let raw_title := splitFirstBefore TEMPORADA_WORD raw_title
    let show_title :=
      py_or3 (sanitize_filename (beautify_spaces raw_title))
        (guess_show_from_parent_dir src_path) (pystr "Desconocido")
    let ep_title := ep_title_from_match cleaned_stem endPos
    let ep_str := pad2 season ++ 'x' :: pad2 episode
    let dst_dir :=
      pyJoin [dst_root, pystr "Series", show_title, pystr "Temporada " ++ pad2 season]
    let base := show_title ++ pystr " - " ++ ep_str ++
      (if ep_title ≠ [] then pystr " - " ++ ep_title else [])
    let dst_name := sanitize_filename (base ++ ext)
    some ⟨src_path, pystr "series", some show_title, some season, some [episode],
          dst_name, dst_dir, pyJoin2 dst_dir dst_name⟩

/-- The series branch that searches the token anywhere in the stem. -/
def try_series_anywhere (cleaned_stem src_path ext dst_root : Str) : Option MediaItem :=
  match firstAnySearch cleaned_stem with
  | none => none
  | some (startPos, endPos, caps) =>
    let season := or_one (safe_int (capStr cleaned_stem caps 1) (some 1))
    let episode := or_one (safe_int (capStr cleaned_stem caps 2) (some 1))
    let pfx := reSubAll TRAIL_SEP [] (cleaned_stem.take startPos)
    let show_title :=
      py_or3 (sanitize_filename (beautify_spaces pfx))
        (guess_show_from_parent_dir src_path) (pystr "Desconocido")
    let ep_title := ep_title_from_match cleaned_stem endPos
    let ep_str := pad2 season ++ 'x' :: pad2 episode
    let dst_dir :=
      pyJoin [dst_root, pystr "Series", show_title, pystr "Temporada " ++ pad2 season]
    let base := show_title ++ pystr " - " ++ ep_str ++
      (if ep_title ≠ [] then pystr " - " ++ ep_title else [])
    let dst_name := sanitize_filename (base ++ ext)
    some ⟨src_path, pystr "series", some show_title, some season, some [episode],
          dst_name, dst_dir, pyJoin2 dst_dir dst_name⟩

/-- The optional `PTN` branch. -/
def try_ptn (ptn : Option (Str → PtnInfo)) (fname cleaned_stem src_path ext dst_root : Str) :
    Option MediaItem :=
  match ptn with
  | none => none
  | some parse =>
    let info := parse fname
    if info.season.isSome || info.episode.isSome then
      let tt := py_or_opt info.title (str_or cleaned_stem (pystr "Desconocido"))
      let tt := match firstSwtMatch tt with
                | some (_, caps) => capStr tt caps 1
                | none => tt
      let show_title :=
        py_or3 (sanitize_filename (beautify_spaces tt))
          (guess_show_from_parent_dir src_path) (pystr "Desconocido")
      let season := or_one (safe_int (optStr info.season) (some 1))
      let episode := or_one (safe_int (optStr info.episode) (some 1))
      let ep_title := clean_episode_title
        (py_or_opt info.episodeName
          (py_or_opt info.episode_name (py_or_opt info.episode_title [])))
      let ep_title :=
        if ep_title = [] then
          match firstAnySearch cleaned_stem with
          | some (_, e, _) => ep_title_from_match cleaned_stem e
          | none => ep_title
        else ep_title
      let ep_str := pad2 season ++ 'x' :: pad2 episode
      let dst_dir :=
        pyJoin [dst_root, pystr "Series", show_title, pystr "Temporada " ++ pad2 season]
      let base := show_title ++ pystr " - " ++ ep_str ++
        (if ep_title ≠ [] then pystr " - " ++ ep_title else [])
      let dst_name := sanitize_filename (base ++ ext)
      some ⟨src_path, pystr "series", some show_title, some season, some [episode],
            dst_name, dst_dir, pyJoin2 dst_dir dst_name⟩
    else none

/-- The optional `guessit` branch.  Note that the parsed entries of
`episode_list` are appended as-is (only unparsable entries are dropped),
and a missing single episode defaults to 1. -/
def try_guessit (gst : Option (Str → GuessitInfo))
    (fname cleaned_stem src_path ext dst_root : Str) : Option MediaItem :=
  match gst with
  | none => none
  | some guess =>
    let info := guess fname
    if info.gtype = some (pystr "episode") then
      let show0 := py_or_opt info.title (str_or cleaned_stem (pystr "Desconocido"))
      let show0 := match firstSwtMatch show0 with
                   | some (_, caps) => capStr show0 caps 1
                   | none => show0
      let show_title :=
        py_or3 (sanitize_filename (beautify_spaces show0))
          (guess_show_from_parent_dir src_path) (pystr "Desconocido")
      let season := or_one (safe_int (info.season.getD (pystr "1")) (some 1))
      let eps0 := match info.episode_list with
                  | some l => l.filterMap (fun e => safe_int e none)
                  | none => []
      let eps := if eps0 = [] then [(safe_int (optStr info.episode) none).getD 1] else eps0
      let ep_title := clean_episode_title (py_or_opt info.episode_title [])
      let ep_title :=
        if ep_title = [] then
          match firstAnySearch cleaned_stem with
          | some (_, e, _) => ep_title_from_match cleaned_stem e
          | none => ep_title
        else ep_title
      let ep_str :=
        if eps.length = 1 then pad2 season ++ 'x' :: pad2 (eps.headD 1)
        else pad2 season ++ 'x' :: pad2 (eps.headD 1) ++ '-' :: pad2 (eps.getLastD 1)
      let dst_dir :=
        pyJoin [dst_root, pystr "Series", show_title, pystr "Temporada " ++ pad2 season]
      let base := show_title ++ pystr " - " ++ ep_str ++
        (if ep_title ≠ [] then pystr " - " ++ ep_title else [])
      let dst_name := sanitize_filename (base ++ ext)
      some ⟨src_path, pystr "series", some show_title, some season, some eps,
            dst_name, dst_dir, pyJoin2 dst_dir dst_name⟩
    else
      let movie := sanitize_filename (beautify_spaces
        (info.title.getD (str_or cleaned_stem (pystr "Pelicula_Desconocida"))))
      let dst_dir := pyJoin2 dst_root (pystr "Películas")
      let dst_name := sanitize_filename
        (match info.year with
         | some y =>
           if y ≠ 0 then movie ++ pystr " (" ++ natDigits y ++ pystr ")" ++ ext
           else movie ++ ext
         | none => movie ++ ext)
      some ⟨src_path, pystr "movie", none, none, none, dst_name, dst_dir,
            pyJoin2 dst_dir dst_name⟩

/-- The final movie fallback. -/
def fallback_movie (cleaned_stem ext dst_root src_path : Str) : MediaItem :=
  let base := sanitize_filename (str_or (beautify_spaces cleaned_stem)
    (pystr "Pelicula_Desconocida"))
  let dst_dir := pyJoin2 dst_root (pystr "Películas")
  let dst_name := base ++ ext
  ⟨src_path, pystr "movie", none, none, none, dst_name, dst_dir, pyJoin2 dst_dir dst_name⟩

/-- The `build_media_item`: the ordered classification chain.  The optional
guessing libraries arrive as injectable capabilities. -/
def build_media_item (ptn : Option (Str → PtnInfo)) (gst : Option (Str → GuessitInfo))
    (src_path dst_root : Str) : Option MediaItem :=
  let fname := pyBasename src_path
  let se := py_splitext fname
  let stem := se.1
  let ext := if se.2 = [] then pystr ".mkv" else se.2
  let cleaned_stem := strip_release_tags stem
  try_franchise cleaned_stem ext dst_root src_path <|>
  try_series_with_title cleaned_stem src_path ext dst_root <|>
  try_series_anywhere cleaned_stem src_path ext dst_root <|>
  try_ptn ptn fname cleaned_stem src_path ext dst_root <|>
  try_guessit gst fname cleaned_stem src_path ext dst_root <|>
  some (fallback_movie cleaned_stem ext dst_root src_path)

/-! ### Filesystem model and the move executor

Files are a finite table from path to size; directories are a finite set
of paths.  The environment abstracts the operating-system primitives:
`abspath` resolution, the outcome of `os.replace` (success, or an
`OSError` with an errno), and whether the streamed copy of a given pair
of paths raises.  Concrete instances must be consistent with the file
table (for example, a rename oracle answering `ok` for a missing source
would model an impossible operating system); the theorems below carry
the needed consistency facts as hypotheses and discharge them on
concrete instances.
-/

/-- The file table and directory set. -/
structure FS where
  files : List (Str × Nat)
  dirs : List Str
deriving DecidableEq, Repr

/-- Size lookup of an existing file. -/
def lookupFile (fs : FS) (p : Str) : Option Nat :=
  (fs.files.find? (fun e => e.1 = p)).map (·.2)

/-- The `os.path.exists` on the file table. -/
def existsFile (fs : FS) (p : Str) : Bool := (lookupFile fs p).isSome

/-- The `os.remove`. -/
def removeFile (fs : FS) (p : Str) : FS :=
  { fs with files := fs.files.filter (fun e => e.1 ≠ p) }

/-- Create or overwrite a file with a size. -/
def setFile (fs : FS) (p : Str) (n : Nat) : FS :=
  { fs with files := (removeFile fs p).files ++ [(p, n)] }

/-- The `ensure_dir` / `os.makedirs(..., exist_ok=True)` on the directory set. -/
def ensure_dir (fs : FS) (d : Str) : FS :=
  if fs.dirs.contains d then fs else { fs with dirs := fs.dirs ++ [d] }

/-- The `file_size`: `os.path.getsize` with 0 on failure. -/
def file_size (fs : FS) (p : Str) : Nat := (lookupFile fs p).getD 0

/-- Outcome of `os.replace`: success, or an `OSError` with an errno. -/
inductive RenameRes where
  | ok
  | osErr (errno : Nat)
deriving DecidableEq, Repr

/-- The `errno.EXDEV`. -/
def EXDEV : Nat := 18

/-- The environment oracle abstracting the operating system. -/
structure Env where
  abspath : Str → Str
  renameRes : Str → Str → RenameRes
  copyFails : Str → Str → Bool

/-- One invocation of the progress callback: the byte increment passed to
`add_bytes`, and the `(done, total, label)` arguments given to the
callback. -/
structure CbCall where
  inc : Nat
  done : Nat
  total : Nat
  label : Str
deriving DecidableEq, Repr

/-- The byte-accounting state of `perform_moves_bytes`: the running
total, the trace of callback invocations, and the `done` values of the
invocations on which the caller-supplied callback returned without
raising. -/
structure PState where
  done : Nat
  calls : List CbCall
  cbOk : List Nat
deriving DecidableEq, Repr

/-- A predicate telling, from the callback arguments, whether the
caller-supplied callback raises on that invocation. -/
abbrev CbRaises := Nat → Nat → Str → Bool

/-- The `add_bytes` of `perform_moves_bytes`: extend the running total, then
invoke the callback, swallowing any exception it raises. -/
def add_bytes (p : CbRaises) (total : Nat) (label : Str) (st : PState) (n : Nat) : PState :=
  let d := st.done + n
  { done := d,
    calls := st.calls ++ [⟨n, d, total, label⟩],
    cbOk := if p d total label then st.cbOk else st.cbOk ++ [d] }

/-- The default chunk size of `copy_with_progress`: 1 MiB. -/
def CHUNK : Nat := 1024 * 1024

/-- The successive read sizes of the chunked copy loop: `min chunk rest`
until the remainder is zero.  The fuel is the remaining size, which
bounds the number of chunks whenever the chunk size is positive. -/
def chunkReads (chunk : Nat) : Nat → Nat → List Nat
  | 0, _ => []
  | _, 0 => []
  | f + 1, sz + 1 => min chunk (sz + 1) :: chunkReads chunk f (sz + 1 - chunk)

/-- The chunk sizes read when copying a file of a given size. -/
def chunkList (chunk sz : Nat) : List Nat := chunkReads chunk sz sz

/-- The `copy_with_progress`: ensure the destination directory, stream the
source in chunks calling `add_bytes` per chunk, then `copystat` best
effort (no metadata in the model). -/
def copy_with_progress (p : CbRaises) (total : Nat) (label : Str)
    (fs : FS) (st : PState) (src dst : Str) (chunk : Nat) : FS × PState :=
  let fs := ensure_dir fs (pyDirname dst)
  let sz := file_size fs src
  let st := (chunkList chunk sz).foldl (add_bytes p total label) st
  (setFile fs dst sz, st)

/-- The `move_path`.  Output: the filesystem, the byte state, an exception
message when the call raises out of the function, and whether control
reached the streamed-copy fallback. -/
def move_path (env : Env) (p : CbRaises) (total : Nat) (label : Str)
    (fs : FS) (st : PState) (src dst : Str) : FS × PState × Option Str × Bool :=
  if env.abspath src = env.abspath dst then (fs, st, none, false)
  else
    let fs := if existsFile fs dst then removeFile fs dst else fs
    let src_sz := file_size fs src
    let fs := ensure_dir fs (pyDirname dst)
    match env.renameRes src dst with
    | .ok =>
      let fs := setFile (removeFile fs src) dst src_sz
      (fs, add_bytes p total label st src_sz, none, false)
    | .osErr _ =>
      -- the errno test of the source compares against EXDEV and then
      -- falls through to the copy in every OSError case
      if env.copyFails src dst then (fs, st, some (pystr "copy error"), true)
      else
        let r := copy_with_progress p total label fs st src dst CHUNK
        (removeFile r.1 src, r.2, none, true)

/-- The companion files found by the `os.listdir` loop of
`move_video_and_companions`: files directly in the source directory with
the exact source stem and a companion extension. -/
def companionEntries (fs : FS) (srcDir srcStem : Str) : List Str :=
  fs.files.filterMap (fun e =>
    if pyDirname e.1 = srcDir then
      let nm := pyBasename e.1
      let se := py_splitext nm
      if se.1 = srcStem && COMPANION_EXTS.contains (py_lower se.2) then some e.1 else none
    else none)

/-- The companion loop: each companion is moved in turn; a raising move
aborts the loop, and the surrounding `try` swallows the exception. -/
def moveCompanions (env : Env) (p : CbRaises) (total : Nat) (label : Str) :
    FS → PState → List Str → Str → Str → FS × PState
  | fs, st, [], _, _ => (fs, st)
  | fs, st, c :: rest, destDir, destStem =>
    let ext := (py_splitext (pyBasename c)).2
    let new_name := sanitize_filename (destStem ++ ext)
    let dp := pyJoin2 destDir new_name
    let r := move_path env p total label fs st c dp
    match r.2.2.1 with
    | some _ => (r.1, r.2.1)
    | none => moveCompanions env p total label r.1 r.2.1 rest destDir destStem

/-- The `move_video_and_companions`: the primary move (whose exception
propagates), then the companion loop on the updated filesystem. -/
def move_video_and_companions (env : Env) (p : CbRaises) (total : Nat) (label : Str)
    (fs : FS) (st : PState) (item : MediaItem) : FS × PState × Option Str :=
  let r := move_path env p total label fs st item.src_path item.dst_path
  match r.2.2.1 with
  | some e => (r.1, r.2.1, some e)
  | none =>
    let destDir := pyDirname item.dst_path
    let destStem := (py_splitext (pyBasename item.dst_path)).1
    let srcDir := pyDirname item.src_path
    let srcStem := (py_splitext (pyBasename item.src_path)).1
    let comps := companionEntries r.1 srcDir srcStem
    let r2 := moveCompanions env p total label r.1 r.2.1 comps destDir destStem
    (r2.1, r2.2, none)

/-- The per-item error message of `perform_moves_bytes`. -/
def moveErrMsg (item : MediaItem) (ex : Str) : Str :=
  pystr "Error al mover " ++ item.src_path ++ pystr " -> " ++ item.dst_path ++
    pystr ": " ++ ex

/-- Result of a batch: filesystem, byte state, collected errors, and the
number of items attempted (instrumentation showing the loop never
aborts early). -/
structure MoveOut where
  fs : FS
  st : PState
  errors : List Str
  attempted : Nat
deriving Repr

/-- The per-item loop of `perform_moves_bytes`: each item is processed
under a `try` that records a per-item error and continues. -/
def performItems (env : Env) (p : CbRaises) (total : Nat) :
    List MediaItem → FS → PState → MoveOut
  | [], fs, st => ⟨fs, st, [], 0⟩
  | item :: rest, fs, st =>
    let label := pyBasename item.dst_path
    let fs := ensure_dir fs item.dst_dir
    let r := move_video_and_companions env p total label fs st item
    let tail := performItems env p total rest r.1 r.2.1
    { fs := tail.fs, st := tail.st,
      errors := (match r.2.2 with | some e => [moveErrMsg item e] | none => []) ++ tail.errors,
      attempted := tail.attempted + 1 }

/-! ### The cleanup sweep -/

/-- The `_path_norm`: absolute path (identity in the model), trailing
separators stripped, lowercased. -/
def path_norm (p : Str) : Str :=
  py_lower ((p.reverse.dropWhile (fun c => c = '/' || c = '\\')).reverse)

/-- The `_is_within`: equality of normal forms or prefix plus separator. -/
def is_within (child root : Str) : Bool :=
  path_norm child = path_norm root ||
    (path_norm root ++ [ '/' ]).isPrefixOf (path_norm child)

/-- Is `p` strictly inside directory `d` (at any depth)? -/
def underDir (p d : Str) : Bool := (d ++ [ '/' ]).isPrefixOf p

/-- Does a file name carry a recognized video extension
(`f.lower().endswith(VIDEO_EXTS)`)? -/
def hasVideoExt (p : Str) : Bool :=
  VIDEO_EXTS.any (fun e => e.isSuffixOf (py_lower (pyBasename p)))

/-- The `_dir_has_videos`: the recursive walk finds a file with a video
extension somewhere below the directory. -/
def dir_has_videos (fs : FS) (d : Str) : Bool :=
  fs.files.any (fun e => underDir e.1 d && hasVideoExt e.1)

/-- The `os.path.isdir` on the directory set. -/
def isDir (fs : FS) (d : Str) : Bool := fs.dirs.contains d

/-- The `shutil.rmtree`: drop the directory, everything below it, and every
file below it. -/
def rmtree (fs : FS) (d : Str) : FS :=
  { files := fs.files.filter (fun e => ¬ underDir e.1 d),
    dirs := fs.dirs.filter (fun x => ¬ (x = d || underDir x d)) }

/-- Stable insertion step for the deepest-first ordering. -/
def insertByLen (x : Str) : List Str → List Str
  | [] => [x]
  | y :: ys =>
    if (path_norm y).length ≤ (path_norm x).length then x :: y :: ys
    else y :: insertByLen x ys

/-- The `sorted(..., key=len(path_norm), reverse=True)`. -/
def sortByNormLenDesc (l : List Str) : List Str := l.foldr insertByLen []

/-- The candidate directories: the de-duplicated source parents of the
plan items with a non-empty source path. -/
def cleanupCandidates (plan : List MediaItem) : List Str :=
  (plan.filterMap (fun it => if it.src_path ≠ [] then some (pyDirname it.src_path) else none)).dedup

/-- The per-candidate loop of `_cleanup_dirs_after_moves`. -/
def cleanupGo (roots : List Str) : List Str → FS → FS
  | [], fs => fs
  | d :: rest, fs =>
    if ¬ roots.any (fun rt => is_within d rt) then cleanupGo roots rest fs
    else if ¬ isDir fs d then cleanupGo roots rest fs
    else if dir_has_videos fs d then cleanupGo roots rest fs
    else cleanupGo roots rest (rmtree fs d)

/-- The `_cleanup_dirs_after_moves` (errors stay empty: `rmtree` does not
fail in the model). -/
def cleanup_dirs_after_moves (fs : FS) (plan : List MediaItem) (source_roots : List Str) :
    FS × List Str :=
  let roots := source_roots.filter (fun r => r ≠ [])
  let cands := sortByNormLenDesc (cleanupCandidates plan)
  (cleanupGo roots cands fs, [])

/-- The `perform_moves_bytes`: run the per-item loop from a fresh byte state,
then the cleanup sweep when source roots are given (Python `if
source_roots:` is false on `None` and on the empty list). -/
def perform_moves_bytes (env : Env) (p : CbRaises) (plan : List MediaItem)
    (total_bytes : Nat) (source_roots : Option (List Str)) (fs : FS) : MoveOut :=
  let r := performItems env p total_bytes plan fs ⟨0, [], []⟩
  match source_roots with
  | none => r
  | some [] => r
  | some roots =>
    let c := cleanup_dirs_after_moves r.fs plan roots
    { r with fs := c.1, errors := r.errors ++ c.2 }

/-! ### The selection tree

The checkbox tree of the GUI, as a pure data structure: `state` is the
`Optional[bool]` of the source (`some true` = checked, `some false` =
unchecked, `none` = the mixed state), `kind` is the node-kind string.
The GUI text and the payload binding are presentation and are not part
of the selection semantics the claims are about.
-/

mutual
inductive SNode : Type where
  | node (kind : Str) (state : Option Bool) (children : SForest)
deriving Repr
inductive SForest : Type where
  | fnil : SForest
  | fcons : SNode → SForest → SForest
deriving Repr
end

/-- State of a node. -/
def stateOf : SNode → Option Bool
  | .node _ s _ => s

/-- Kind of a node. -/
def kindOf : SNode → Str
  | .node k _ _ => k

/-- Children of a node. -/
def childrenOf : SNode → SForest
  | .node _ _ cs => cs

/-- Emptiness of a forest. -/
def fIsNil : SForest → Bool
  | .fnil => true
  | .fcons _ _ => false

/-- Do all roots of the forest hold the given state? -/
def fAllState (v : Option Bool) : SForest → Bool
  | .fnil => true
  | .fcons t ts => stateOf t = v && fAllState v ts

/-- The ancestor recomputation of `_recalc_ancestors`: all-checked gives
checked, all-unchecked gives unchecked, otherwise the mixed state. -/
def faggregate (cs : SForest) : Option Bool :=
  if fAllState (some true) cs then some true
  else if fAllState (some false) cs then some false
  else none

/-- Indexing into a forest. -/
def fget : SForest → Nat → Option SNode
  | .fnil, _ => none
  | .fcons t _, 0 => some t
  | .fcons _ ts, n + 1 => fget ts n

/-- Replace the node at an index. -/
def fset : SForest → Nat → SNode → SForest
  | .fnil, _, _ => .fnil
  | .fcons _ ts, 0, t => .fcons t ts
  | .fcons t ts, n + 1, u => .fcons t (fset ts n u)

mutual
/-- The `_set_descendants`: set a whole subtree to one boolean state. -/
def setDescN (b : Bool) : SNode → SNode
  | .node k _ cs => .node k (some b) (setDescF b cs)
/-- The `_set_descendants` over a forest of children. -/
def setDescF (b : Bool) : SForest → SForest
  | .fnil => .fnil
  | .fcons t ts => .fcons (setDescN b t) (setDescF b ts)
end

/-- The state chosen by `_toggle_node` when no explicit state is given:
the mixed state toggles to checked, a boolean state flips. -/
def toggleTarget (explicitState : Option Bool) (cur : Option Bool) : Bool :=
  match explicitState with
  | some b => b
  | none => match cur with
            | none => true
            | some c => !c

/-- The `_toggle_node` on a node addressed by a child-index path: set the
target subtree, then recompute every ancestor aggregate on the way back
up (an invalid index leaves the tree unchanged, mirroring that the GUI
only toggles existing nodes). -/
def toggleAtN : SNode → List Nat → Option Bool → SNode
  | t, [], ns => setDescN (toggleTarget ns (stateOf t)) t
  | .node k s cs, i :: rest, ns =>
    match fget cs i with
    | none => .node k s cs
    | some c =>
      let cs2 := fset cs i (toggleAtN c rest ns)
      .node k (faggregate cs2) cs2

/-- Toggle inside the forest of top-level nodes (the root nodes have no
parent in the source, so no aggregate is recomputed above them). -/
def toggleF (f : SForest) : List Nat → Option Bool → SForest
  | [], _ => f
  | i :: rest, ns =>
    match fget f i with
    | none => f
    | some t => fset f i (toggleAtN t rest ns)

/-- State of the node addressed by a path. -/
def stateAtN : SNode → List Nat → Option (Option Bool)
  | t, [] => some (stateOf t)
  | t, i :: rest =>
    match fget (childrenOf t) i with
    | none => none
    | some c => stateAtN c rest

/-- State of the node addressed by a path from the forest of roots. -/
def stateAtF (f : SForest) : List Nat → Option (Option Bool)
  | [] => none
  | i :: rest =>
    match fget f i with
    | none => none
    | some t => stateAtN t rest

mutual
/-- Shape well-formedness: file nodes are leaves and every other node
has at least one child (true of every tree `_populate_tree` builds). -/
def wfN : SNode → Bool
  | .node k _ cs => (if k = pystr "file" then fIsNil cs else ¬ fIsNil cs) && wfF cs
/-- Shape well-formedness of a forest. -/
def wfF : SForest → Bool
  | .fnil => true
  | .fcons t ts => wfN t && wfF ts
end

mutual
/-- The claimed invariant: every non-file node holds the aggregate of
its children, and file nodes never hold the mixed state. -/
def consN : SNode → Bool
  | .node k s cs =>
    (if k = pystr "file" then s.isSome else s = faggregate cs) && consF cs
/-- The invariant over a forest. -/
def consF : SForest → Bool
  | .fnil => true
  | .fcons t ts => consN t && consF ts
end

/-- Map a list to a forest. -/
def forestOfList : List SNode → SForest
  | [] => .fnil
  | t :: ts => .fcons t (forestOfList ts)

/-- Lexicographic code-point order on strings, the Python `<`. -/
def strLt : Str → Str → Bool
  | [], [] => false
  | [], _ :: _ => true
  | _ :: _, [] => false
  | a :: as_, b :: bs => if a = b then strLt as_ bs else a.toNat < b.toNat

/-- Stable insertion for `sorted(..., key=...)` with a boolean strict
order on keys. -/
def insSortIns {α : Type} (lt : α → α → Bool) (x : α) : List α → List α
  | [] => [x]
  | y :: ys => if lt y x then y :: insSortIns lt x ys else x :: y :: ys

/-- Stable insertion sort, ascending. -/
def insSort {α : Type} (lt : α → α → Bool) : List α → List α
  | [] => []
  | x :: xs => insSortIns lt x (insSort lt xs)

/-- Show key of a series item: `it.show_title or "Desconocido"`. -/
def showKey (it : MediaItem) : Str := py_or_opt it.show_title (pystr "Desconocido")

/-- Season key of a series item: `it.season or 1`. -/
def seasonKey (it : MediaItem) : Nat :=
  match it.season with
  | some n => if n = 0 then 1 else n
  | none => 1

/-- A file leaf of the tree, checked by default. -/
def fileNode : SNode := .node (pystr "file") (some true) .fnil

/-- The season subtree of `_populate_tree`: one checked file leaf per
item, sorted by lowercased destination file name. -/
def seasonNode (items : List MediaItem) : SNode :=
  .node (pystr "season") (some true)
    (forestOfList ((insSort (fun a b => strLt (py_lower a.dst_filename)
      (py_lower b.dst_filename)) items).map (fun _ => fileNode)))

/-- The show subtree: one season child per distinct season, ascending. -/
def showNode (items : List MediaItem) : SNode :=
  let seasons := insSort (fun a b => a < b) (items.map seasonKey).dedup
  .node (pystr "show") (some true)
    (forestOfList (seasons.map (fun sn => seasonNode (items.filter (fun it => seasonKey it = sn)))))

/-- The `_populate_tree` as a pure forest: a movies category when movies
exist, and a series category grouped show-then-season, every node
checked. -/
def populate_tree (plan : List MediaItem) : SForest :=
  let movies := plan.filter (fun it => it.content_type = pystr "movie")
  let series := plan.filter (fun it => it.content_type = pystr "series")
  let titles := insSort (fun a b => strLt (py_lower a) (py_lower b)) (series.map showKey).dedup
  let moviesNodes : List SNode :=
    if movies ≠ [] then
      [.node (pystr "movies") (some true)
        (forestOfList ((insSort (fun a b => strLt (py_lower a.dst_filename)
          (py_lower b.dst_filename)) movies).map (fun _ => fileNode)))]
    else []
  let seriesNodes : List SNode :=
    if series ≠ [] then
      [.node (pystr "series") (some true)
        (forestOfList (titles.map (fun t => showNode (series.filter (fun it => showKey it = t)))))]
    else []
  forestOfList (moviesNodes ++ seriesNodes)

/-! ### Auxiliary definitions for the statements -/

/-- The classification descriptor: every field of a planned item except
the source identity, used to compare classification outcomes of
different file names. -/
structure Descr where
  content_type : Str
  show_title : Option Str
  season : Option Nat
  episodes : Option (List Nat)
  dst_filename : Str
  dst_dir : Str
  dst_path : Str
deriving DecidableEq, Repr

/-- The descriptor of an item. -/
def descrOf (it : MediaItem) : Descr :=
  ⟨it.content_type, it.show_title, it.season, it.episodes,
   it.dst_filename, it.dst_dir, it.dst_path⟩

/-- Modelled from the spec wording of the separator-collapse pre-step
(for the refinement comparison of claim C6): release tags stripped to
fixed point, every underscore and dot separator replaced by a space,
runs of whitespace collapsed. -/
def spec_separator_collapse (s : Str) : Str :=
  let s := stripTagsLoop (s.length + 1) s
  let s := s.map (fun c => if c = '_' || c = '.' then ' ' else c)
  reSubAll WSP (pystr " ") s

/-- A callback that never raises. -/
def neverRaise : CbRaises := fun _ _ _ => false

/-- Equality of the byte-accounting data that feeds back into the
executor (everything except the record of completed callback runs). -/
def stEquiv (a b : PState) : Prop := a.done = b.done ∧ a.calls = b.calls

/-- The running-total invariant: the reported `done` values are a
non-decreasing chain bounded by the current total. -/
def callsMono (st : PState) : Prop :=
  List.Chain' (· ≤ ·) (st.calls.map (·.done)) ∧ ∀ c ∈ st.calls, c.done ≤ st.done

/-- A well-formed directory path of the cleanup model: non-empty and
without a trailing separator. -/
def wfDirPath (d : Str) : Prop :=
  d ≠ [] ∧ d.getLast? ≠ some '/' ∧ d.getLast? ≠ some '\\'

instance (d : Str) : Decidable (wfDirPath d) := by
  unfold wfDirPath
  infer_instance

/-- A guesser instance reporting an episode classification whose single
episode parses to zero (used against claim C3). -/
def gstZeroEpisode : Str → GuessitInfo :=
  fun _ => ⟨some (pystr "episode"), some (pystr "Show"), none, none,
            some (pystr "0"), none, none⟩

/-- An environment whose rename always reports a permission error
(errno 13, not the cross-volume errno) and whose copies succeed. -/
def envEacces : Env :=
  ⟨id, fun _ _ => .osErr 13, fun _ _ => false⟩

/-- An environment whose rename always reports the cross-volume errno
and whose copies succeed. -/
def envXdev : Env :=
  ⟨id, fun _ _ => .osErr EXDEV, fun _ _ => false⟩

/-- An environment whose rename reports a cross-volume errno and whose
copies fail. -/
def envCopyFail : Env :=
  ⟨id, fun _ _ => .osErr EXDEV, fun _ _ => true⟩

/-- An environment where every operation succeeds. -/
def envOk : Env := ⟨id, fun _ _ => .ok, fun _ _ => false⟩

/-- The empty byte state at the start of a batch. -/
def st0 : PState := ⟨0, [], []⟩

/-- A one-video filesystem used by the concrete move scenarios. -/
def fsOneVideo : FS := ⟨[(pystr "/s/a.mkv", 2 * 1024 * 1024 + 7)], [pystr "/s"]⟩

/-- The planned item moving that video across volumes. -/
def itemOneVideo : MediaItem :=
  ⟨pystr "/s/a.mkv", pystr "movie", none, none, none,
   pystr "a.mkv", pystr "/d", pystr "/d/a.mkv"⟩

/-- Cleanup scenario: a source subdirectory left holding only a
companion file after its video was moved away. -/
def fsCompanionOnly : FS :=
  ⟨[(pystr "/r/sub/a.srt", 4)], [pystr "/r", pystr "/r/sub"]⟩

/-- The plan item whose source was in that subdirectory. -/
def itemCompanionOnly : MediaItem :=
  ⟨pystr "/r/sub/a.mkv", pystr "movie", none, none, none,
   pystr "a.mkv", pystr "/d", pystr "/d/a.mkv"⟩

/-- Cleanup scenario: a source subdirectory still holding a
sample-pattern file with a video extension. -/
def fsSampleLeft : FS :=
  ⟨[(pystr "/r/sub2/sample.mkv", 9)], [pystr "/r", pystr "/r/sub2"]⟩

/-- The plan item whose source was in that subdirectory. -/
def itemSampleLeft : MediaItem :=
  ⟨pystr "/r/sub2/ep.mkv", pystr "movie", none, none, none,
   pystr "ep.mkv", pystr "/d", pystr "/d/ep.mkv"⟩

/-! ### General lemmas -/

theorem takeWhile_append_stop {p : Char → Bool} :
    ∀ (l1 : Str) (a : Char) (l2 : Str), (∀ x ∈ l1, p x) → p a = false →
      (l1 ++ a :: l2).takeWhile p = l1 := by
  intro l1 a l2 h1 h2
  induction l1 with
  | nil => simp [List.takeWhile, h2]
  | cons x xs ih =>
    have hx : p x = true := h1 x (by simp)
    simp [List.takeWhile, hx]
    exact ih (fun y hy => h1 y (by simp [hy]))

theorem pyBasename_append (d f : Str) (h : '/' ∉ f) :
    pyBasename (d ++ '/' :: f) = f := by
  unfold pyBasename
  rw [List.reverse_append]
  simp only [List.reverse_cons]
  rw [show f.reverse ++ [ '/' ] ++ d.reverse = f.reverse ++ '/' :: d.reverse by simp]
  rw [takeWhile_append_stop f.reverse '/' d.reverse ?_ ?_]
  · simp
  · intro x hx
    simp only [List.mem_reverse] at hx
    simp only [ne_eq, decide_eq_true_eq]
    exact fun he => h (he ▸ hx)
  · simp

theorem py_or3_pos (a : Str) (b : Option Str) (c : Str) (h : a ≠ []) :
    py_or3 a b c = a := by
  unfold py_or3
  rw [if_pos h]

theorem try_franchise_none (c : Str) (h : reMatch FALLBACK_NUMBERED_TITLE c = none)
    (e r s : Str) : try_franchise c e r s = none := by
  unfold try_franchise
  rw [h]

theorem try_swt_shape (c src ext root : Str) (pe : Nat) (caps : Caps)
    (h : firstSwtMatch c = some (pe, caps))
    (hne : sanitize_filename (beautify_spaces (splitFirstBefore TEMPORADA_WORD (capStr c caps 1))) ≠ []) :
    try_series_with_title c src ext root =
      some ⟨src, pystr "series",
            some (sanitize_filename (beautify_spaces (splitFirstBefore TEMPORADA_WORD (capStr c caps 1)))),
            some (or_one (safe_int (capStr c caps 2) (some 1))),
            some [or_one (safe_int (capStr c caps 3) (some 1))],
            sanitize_filename
              ((sanitize_filename (beautify_spaces (splitFirstBefore TEMPORADA_WORD (capStr c caps 1))) ++
                pystr " - " ++
                (pad2 (or_one (safe_int (capStr c caps 2) (some 1))) ++
                  'x' :: pad2 (or_one (safe_int (capStr c caps 3) (some 1)))) ++
                (if ep_title_from_match c pe ≠ [] then pystr " - " ++ ep_title_from_match c pe else [])) ++ ext),
            pyJoin [root, pystr "Series",
              sanitize_filename (beautify_spaces (splitFirstBefore TEMPORADA_WORD (capStr c caps 1))),
              pystr "Temporada " ++ pad2 (or_one (safe_int (capStr c caps 2) (some 1)))],
            pyJoin2
              (pyJoin [root, pystr "Series",
                sanitize_filename (beautify_spaces (splitFirstBefore TEMPORADA_WORD (capStr c caps 1))),
                pystr "Temporada " ++ pad2 (or_one (safe_int (capStr c caps 2) (some 1)))])
              (sanitize_filename
                ((sanitize_filename (beautify_spaces (splitFirstBefore TEMPORADA_WORD (capStr c caps 1))) ++
                  pystr " - " ++
                  (pad2 (or_one (safe_int (capStr c caps 2) (some 1))) ++
                    'x' :: pad2 (or_one (safe_int (capStr c caps 3) (some 1)))) ++
                  (if ep_title_from_match c pe ≠ [] then pystr " - " ++ ep_title_from_match c pe else [])) ++ ext))⟩ := by
  unfold try_series_with_title
  split
  · rename_i heq
    rw [h] at heq
    exact absurd heq (by simp)
  · rename_i pe' caps' heq
    rw [h] at heq
    injection heq with heq2
    injection heq2 with hpe hcaps
    subst hpe
    subst hcaps
    simp only []
    rw [py_or3_pos _ _ _ hne]

theorem try_franchise_shape (c e r s : Str) (pe : Nat) (caps : Caps)
    (h : reMatch FALLBACK_NUMBERED_TITLE c = some (pe, caps)) :
    try_franchise c e r s =
      some ⟨s, pystr "movie", none, none, none,
        sanitize_filename
          (sanitize_filename (beautify_spaces (capStr c caps 1) ++
            ' ' :: pad2 (or_one (safe_int (capStr c caps 2) (some 1))) ++
            pystr " - " ++ beautify_spaces (capStr c caps 3)) ++ e),
        pyJoin2 r (pystr "Películas"),
        pyJoin2 (pyJoin2 r (pystr "Películas"))
          (sanitize_filename
            (sanitize_filename (beautify_spaces (capStr c caps 1) ++
              ' ' :: pad2 (or_one (safe_int (capStr c caps 2) (some 1))) ++
              pystr " - " ++ beautify_spaces (capStr c caps 3)) ++ e))⟩ := by
  unfold try_franchise
  split
  · rename_i heq
    rw [h] at heq
    exact absurd heq (by simp)
  · rename_i pe' caps' heq
    rw [h] at heq
    injection heq with heq2
    injection heq2 with hpe hcaps
    subst hpe
    subst hcaps
    rfl

/-! ### Claim C1 -/

/-- Claim C1, counterexample: for `Cheers_04x05-Tortilla.mkv` the planned
destination relative to the root is
`Series/Cheers/Temporada 04/Cheers - 04x05 - Tortilla.mkv`, which is not
the `Series/Cheers/Season 04/...` path the claim states, so the claim as
stated is false at this concrete input. -/
theorem claim_C1_counterexample :
    (build_media_item none none (pystr "/s/Cheers_04x05-Tortilla.mkv") (pystr "")).map
        (fun it => it.dst_path) =
      some (pystr "Series/Cheers/Temporada 04/Cheers - 04x05 - Tortilla.mkv") ∧
    pystr "Series/Cheers/Temporada 04/Cheers - 04x05 - Tortilla.mkv" ≠
      pystr "Series/Cheers/Season 04/Cheers - 04x05 - Tortilla.mkv" := by
  constructor
  · decide
  · decide

/-- Claim C1, amended: for the input filename `Cheers_04x05-Tortilla.mkv`
under any parent directory and any guesser availability, classification
yields a Series descriptor with show `Cheers`, season 4, episode 5,
episode title `Tortilla` (carried in the rendered file name), and the
destination relative to the root is exactly
`Series/Cheers/Temporada 04/Cheers - 04x05 - Tortilla.mkv` — the season
directory is named `Temporada`, not `Season`. -/
theorem claim_C1_amended :
    ∀ (dir : Str) (ptn : Option (Str → PtnInfo)) (gst : Option (Str → GuessitInfo)),
    build_media_item ptn gst (dir ++ pystr "/Cheers_04x05-Tortilla.mkv") (pystr "") =
      some ⟨dir ++ pystr "/Cheers_04x05-Tortilla.mkv", pystr "series", some (pystr "Cheers"),
            some 4, some [5], pystr "Cheers - 04x05 - Tortilla.mkv",
            pystr "Series/Cheers/Temporada 04",
            pystr "Series/Cheers/Temporada 04/Cheers - 04x05 - Tortilla.mkv"⟩ := by
  intro dir ptn gst
  have hb : pyBasename (dir ++ pystr "/Cheers_04x05-Tortilla.mkv") =
      pystr "Cheers_04x05-Tortilla.mkv" := by
    have he : pystr "/Cheers_04x05-Tortilla.mkv" = '/' :: pystr "Cheers_04x05-Tortilla.mkv" := rfl
    rw [he]
    exact pyBasename_append _ _ (by decide)
  unfold build_media_item
  rw [hb]
  simp only []
  rw [show strip_release_tags (py_splitext (pystr "Cheers_04x05-Tortilla.mkv")).1 =
        pystr "Cheers_04x05-Tortilla" from by decide]
  rw [show (if (py_splitext (pystr "Cheers_04x05-Tortilla.mkv")).2 = [] then pystr ".mkv"
        else (py_splitext (pystr "Cheers_04x05-Tortilla.mkv")).2) = pystr ".mkv" from by decide]
  rw [try_franchise_none _ (by decide)]
  rw [try_swt_shape (pystr "Cheers_04x05-Tortilla") _ (pystr ".mkv") (pystr "")
        12 [(3, 10, 12), (2, 7, 9), (1, 0, 6)] (by decide) (by decide)]
  rw [show sanitize_filename (beautify_spaces (splitFirstBefore TEMPORADA_WORD
        (capStr (pystr "Cheers_04x05-Tortilla") [(3, 10, 12), (2, 7, 9), (1, 0, 6)] 1))) =
        pystr "Cheers" from by decide]
  simp only [Option.none_orElse, Option.some_orElse]
  simp only [Option.some.injEq, MediaItem.mk.injEq]
  exact ⟨trivial, trivial, by decide, by decide, by decide, by decide, by decide, by decide⟩

/-! ### Claim C8 -/

/-- Claim C8, counterexample: for `Shin Chan 01 - La Pelicula.mkv` the
planned destination relative to the root is
`Películas/Shin Chan 01 - La Pelicula.mkv`, not the `Movies/...` path
the claim states, so the claim as stated is false at this input. -/
theorem claim_C8_counterexample :
    (build_media_item none none (pystr "/s/Shin Chan 01 - La Pelicula.mkv") (pystr "")).map
        (fun it => it.dst_path) =
      some (pystr "Películas/Shin Chan 01 - La Pelicula.mkv") ∧
    pystr "Películas/Shin Chan 01 - La Pelicula.mkv" ≠
      pystr "Movies/Shin Chan 01 - La Pelicula.mkv" := by
  constructor
  · decide
  · decide

/-- Claim C8, amended: for the input filename
`Shin Chan 01 - La Pelicula.mkv` under any parent directory and any
guesser availability, classification yields a Movie descriptor via the
numbered-franchise rule with the number zero-padded to two digits, and
the destination relative to the root is exactly
`Películas/Shin Chan 01 - La Pelicula.mkv` — the movie directory is
named `Películas`, not `Movies`. -/
theorem claim_C8_amended :
    ∀ (dir : Str) (ptn : Option (Str → PtnInfo)) (gst : Option (Str → GuessitInfo)),
    build_media_item ptn gst (dir ++ pystr "/Shin Chan 01 - La Pelicula.mkv") (pystr "") =
      some ⟨dir ++ pystr "/Shin Chan 01 - La Pelicula.mkv", pystr "movie", none, none, none,
            pystr "Shin Chan 01 - La Pelicula.mkv", pystr "Películas",
            pystr "Películas/Shin Chan 01 - La Pelicula.mkv"⟩ := by
  intro dir ptn gst
  have hb : pyBasename (dir ++ pystr "/Shin Chan 01 - La Pelicula.mkv") =
      pystr "Shin Chan 01 - La Pelicula.mkv" := by
    have he : pystr "/Shin Chan 01 - La Pelicula.mkv" =
        '/' :: pystr "Shin Chan 01 - La Pelicula.mkv" := rfl
    rw [he]
    exact pyBasename_append _ _ (by decide)
  unfold build_media_item
  rw [hb]
  simp only []
  rw [show strip_release_tags (py_splitext (pystr "Shin Chan 01 - La Pelicula.mkv")).1 =
        pystr "Shin Chan 01 - La Pelicula" from by decide]
  rw [show (if (py_splitext (pystr "Shin Chan 01 - La Pelicula.mkv")).2 = [] then pystr ".mkv"
        else (py_splitext (pystr "Shin Chan 01 - La Pelicula.mkv")).2) = pystr ".mkv"
        from by decide]
  rw [try_franchise_shape (pystr "Shin Chan 01 - La Pelicula") (pystr ".mkv") (pystr "") _
        26 [(3, 15, 26), (2, 10, 12), (1, 0, 9)] (by decide)]
  simp only [Option.some_orElse]
  simp only [Option.some.injEq, MediaItem.mk.injEq]
  exact ⟨trivial, trivial, trivial, trivial, trivial, by decide, by decide, by decide⟩

/-! ### Claim C6 -/

/-- Claim C6, counterexample: classification is not invariant under the
separator collapse described by the spec.  The stem `A.1 - B` classifies
as the fallback movie `A 1 - B.mkv`, while its collapsed form `A 1 - B`
matches the numbered-franchise rule and classifies as `A 01 - B.mkv`, a
different descriptor. -/
theorem claim_C6_counterexample :
    spec_separator_collapse (pystr "A.1 - B") = pystr "A 1 - B" ∧
    (build_media_item none none (pystr "/s/A.1 - B.mkv") (pystr "")).map descrOf ≠
      (build_media_item none none (pystr "/s/A 1 - B.mkv") (pystr "")).map descrOf := by
  constructor
  · decide
  · decide

/-- Claim C6, amended: separator collapse is not a pre-step of the rule
matching; only release-tag stripping is applied to the stem.  The series
patterns treat underscore, dot and whitespace as equivalent separators
before the season-episode token, so stems such as the Cheers example
agree with their collapsed form, but the chain as a whole is not
invariant: the numbered-franchise rule requires literal whitespace, and
`A.1 - B` classifies differently from its collapsed form. -/
theorem claim_C6_amended :
    (spec_separator_collapse (pystr "Cheers_04x05-Tortilla") = pystr "Cheers 04x05-Tortilla" ∧
     (build_media_item none none (pystr "/s/Cheers_04x05-Tortilla.mkv") (pystr "")).map descrOf =
       (build_media_item none none (pystr "/s/Cheers 04x05-Tortilla.mkv") (pystr "")).map descrOf) ∧
    (spec_separator_collapse (pystr "A.1 - B") = pystr "A 1 - B" ∧
     (build_media_item none none (pystr "/s/A.1 - B.mkv") (pystr "")).map descrOf ≠
       (build_media_item none none (pystr "/s/A 1 - B.mkv") (pystr "")).map descrOf) := by
  refine ⟨⟨by decide, by decide⟩, by decide, by decide⟩

/-! ### Claim C3 -/

theorem or_one_pos (x : Option Nat) : 1 ≤ or_one x := by
  unfold or_one
  cases x with
  | none => simp
  | some n => cases n <;> simp

theorem orElse_eq_some' {α : Type} (a b : Option α) (x : α) (h : (a <|> b) = some x) :
    a = some x ∨ b = some x := by
  cases a <;> simp_all

theorem try_franchise_fields (c e r s : Str) (it : MediaItem)
    (h : try_franchise c e r s = some it) : it.season = none ∧ it.episodes = none := by
  unfold try_franchise at h
  split at h
  · exact absurd h (by simp)
  · injection h with h
    subst h
    exact ⟨rfl, rfl⟩

theorem try_swt_fields (c src ext root : Str) (it : MediaItem)
    (h : try_series_with_title c src ext root = some it) :
    (∀ n, it.season = some n → 1 ≤ n) ∧
    (∀ l, it.episodes = some l → ∀ e ∈ l, 1 ≤ e) := by
  unfold try_series_with_title at h
  split at h
  · exact absurd h (by simp)
  · injection h with h
    subst h
    refine ⟨?_, ?_⟩
    · intro n hn
      simp only [] at hn
      injection hn with hn
      subst hn
      exact or_one_pos _
    · intro l hl e he
      simp only [] at hl
      injection hl with hl
      subst hl
      simp only [List.mem_singleton] at he
      subst he
      exact or_one_pos _

theorem try_anywhere_fields (c src ext root : Str) (it : MediaItem)
    (h : try_series_anywhere c src ext root = some it) :
    (∀ n, it.season = some n → 1 ≤ n) ∧
    (∀ l, it.episodes = some l → ∀ e ∈ l, 1 ≤ e) := by
  unfold try_series_anywhere at h
  split at h
  · exact absurd h (by simp)
  · injection h with h
    subst h
    refine ⟨?_, ?_⟩
    · intro n hn
      simp only [] at hn
      injection hn with hn
      subst hn
      exact or_one_pos _
    · intro l hl e he
      simp only [] at hl
      injection hl with hl
      subst hl
      simp only [List.mem_singleton] at he
      subst he
      exact or_one_pos _

theorem try_ptn_none (fname c s e r : Str) : try_ptn none fname c s e r = none := rfl

theorem try_guessit_none (fname c s e r : Str) : try_guessit none fname c s e r = none := rfl

theorem try_ptn_fields (pf : Str → PtnInfo) (fname c src ext root : Str) (it : MediaItem)
    (h : try_ptn (some pf) fname c src ext root = some it) :
    (∀ n, it.season = some n → 1 ≤ n) ∧
    (∀ l, it.episodes = some l → ∀ e ∈ l, 1 ≤ e) := by
  unfold try_ptn at h
  simp only [] at h
  split at h
  · injection h with h
    subst h
    refine ⟨?_, ?_⟩
    · intro n hn
      simp only [] at hn
      injection hn with hn
      subst hn
      exact or_one_pos _
    · intro l hl e he
      simp only [] at hl
      injection hl with hl
      subst hl
      simp only [List.mem_singleton] at he
      subst he
      exact or_one_pos _
  · exact absurd h (by simp)

theorem try_guessit_season (gf : Str → GuessitInfo) (fname c src ext root : Str) (it : MediaItem)
    (h : try_guessit (some gf) fname c src ext root = some it) :
    ∀ n, it.season = some n → 1 ≤ n := by
  unfold try_guessit at h
  simp only [] at h
  split at h
  · injection h with h
    subst h
    intro n hn
    simp only [] at hn
    injection hn with hn
    subst hn
    exact or_one_pos _
  · injection h with h
    subst h
    intro n hn
    simp only [] at hn
    exact absurd hn (by simp)

/-- Claim C3, counterexample: through the guesser-B (guessit) branch a
parsed episode value of 0 surfaces unchanged in the descriptor, so the
claim that every entry of the episode list is at least 1 in every branch
is false at this concrete input. -/
theorem claim_C3_counterexample :
    (build_media_item none (some gstZeroEpisode) (pystr "/s/randomfile.mkv") (pystr "")).map
        (fun it => it.episodes) = some (some [0]) ∧
    ¬ (∀ e ∈ [(0 : Nat)], 1 ≤ e) := by
  constructor
  · decide
  · decide

/-- Claim C3, amended: the season of every classified item is at least 1
in every branch of the chain (any numeric token that cannot be parsed
defaults to 1), and the episode entries are at least 1 in every branch
except the guesser-B branch: when guesser B is absent, every episode
entry of every classified item is at least 1.  In the guesser-B branch a
parsed episode value of 0 is used as-is. -/
theorem claim_C3_amended :
    ∀ (ptn : Option (Str → PtnInfo)) (gst : Option (Str → GuessitInfo)) (src root : Str)
      (it : MediaItem),
    build_media_item ptn gst src root = some it →
    (∀ n, it.season = some n → 1 ≤ n) ∧
    (gst = none → ∀ l, it.episodes = some l → ∀ e ∈ l, 1 ≤ e) := by
  intro ptn gst src root it h
  unfold build_media_item at h
  simp only [] at h
  rcases orElse_eq_some' _ _ _ h with h1 | h
  · obtain ⟨hs, he⟩ := try_franchise_fields _ _ _ _ _ h1
    refine ⟨fun n hn => absurd hn (by simp [hs]), fun _ l hl => absurd hl (by simp [he])⟩
  rcases orElse_eq_some' _ _ _ h with h1 | h
  · obtain ⟨hs, he⟩ := try_swt_fields _ _ _ _ _ h1
    exact ⟨hs, fun _ => he⟩
  rcases orElse_eq_some' _ _ _ h with h1 | h
  · obtain ⟨hs, he⟩ := try_anywhere_fields _ _ _ _ _ h1
    exact ⟨hs, fun _ => he⟩
  rcases orElse_eq_some' _ _ _ h with h1 | h
  · cases ptn with
    | none => rw [try_ptn_none] at h1; exact absurd h1 (by simp)
    | some pf =>
      obtain ⟨hs, he⟩ := try_ptn_fields _ _ _ _ _ _ _ h1
      exact ⟨hs, fun _ => he⟩
  rcases orElse_eq_some' _ _ _ h with h1 | h
  · cases gst with
    | none => rw [try_guessit_none] at h1; exact absurd h1 (by simp)
    | some gf =>
      refine ⟨try_guessit_season _ _ _ _ _ _ _ h1, ?_⟩
      intro hgst
      exact absurd hgst (by simp)
  · injection h with h
    subst h
    refine ⟨fun n hn => ?_, fun _ l hl => ?_⟩
    · exact absurd hn (by simp [fallback_movie])
    · exact absurd hl (by simp [fallback_movie])

/-- Claim C3, witness: the amended theorem applied to the concrete
Cheers episode, whose season is 4 and whose episode list is `[5]`. -/
theorem claim_C3_witness : (1 ≤ 4) ∧ (∀ e ∈ [(5 : Nat)], 1 ≤ e) := by
  have h := claim_C3_amended none none (pystr "/s/Cheers_04x05-Tortilla.mkv") (pystr "")
    ⟨pystr "/s/Cheers_04x05-Tortilla.mkv", pystr "series", some (pystr "Cheers"),
     some 4, some [5], pystr "Cheers - 04x05 - Tortilla.mkv",
     pystr "Series/Cheers/Temporada 04",
     pystr "Series/Cheers/Temporada 04/Cheers - 04x05 - Tortilla.mkv"⟩ (by decide)
  exact ⟨h.1 4 rfl, h.2 rfl [5] rfl⟩

/-! ### Claim C9 -/

/-- Claim C9: when source and destination resolve to the same absolute
path, the single-file move is a no-op: the filesystem is unchanged, no
rename or copy is performed, no exception is raised, and zero bytes are
reported (the byte state is untouched). -/
theorem claim_C9 :
    ∀ (env : Env) (p : CbRaises) (total : Nat) (label : Str) (fs : FS) (st : PState)
      (src dst : Str), env.abspath src = env.abspath dst →
    move_path env p total label fs st src dst = (fs, st, none, false) := by
  intro env p total label fs st src dst h
  unfold move_path
  rw [if_pos h]

/-- Claim C9, witness: the theorem applied to a concrete same-path move. -/
theorem claim_C9_witness :
    move_path envOk neverRaise 0 [] fsOneVideo st0 (pystr "/s/a.mkv") (pystr "/s/a.mkv") =
      (fsOneVideo, st0, none, false) :=
  claim_C9 envOk neverRaise 0 [] fsOneVideo st0 (pystr "/s/a.mkv") (pystr "/s/a.mkv") rfl

/-! ### Claim C10: callback exceptions are invisible to the executor -/

theorem add_bytes_equiv (p q : CbRaises) (total : Nat) (label : Str) (a b : PState) (n : Nat)
    (h : stEquiv a b) : stEquiv (add_bytes p total label a n) (add_bytes q total label b n) := by
  obtain ⟨h1, h2⟩ := h
  unfold add_bytes stEquiv
  simp only [h1, h2]
  exact ⟨trivial, trivial⟩

theorem foldl_add_bytes_equiv (p q : CbRaises) (total : Nat) (label : Str) :
    ∀ (ns : List Nat) (a b : PState), stEquiv a b →
      stEquiv (ns.foldl (add_bytes p total label) a) (ns.foldl (add_bytes q total label) b) := by
  intro ns
  induction ns with
  | nil => intro a b h; exact h
  | cons n ns ih =>
    intro a b h
    exact ih _ _ (add_bytes_equiv p q total label a b n h)

theorem copy_equiv (p q : CbRaises) (total : Nat) (label : Str) (fs : FS) (a b : PState)
    (src dst : Str) (chunk : Nat) (h : stEquiv a b) :
    (copy_with_progress p total label fs a src dst chunk).1 =
      (copy_with_progress q total label fs b src dst chunk).1 ∧
    stEquiv (copy_with_progress p total label fs a src dst chunk).2
      (copy_with_progress q total label fs b src dst chunk).2 := by
  unfold copy_with_progress
  exact ⟨rfl, foldl_add_bytes_equiv p q total label _ a b h⟩

theorem move_path_equiv (env : Env) (p q : CbRaises) (total : Nat) (label : Str) (fs : FS)
    (a b : PState) (src dst : Str) (h : stEquiv a b) :
    (move_path env p total label fs a src dst).1 = (move_path env q total label fs b src dst).1 ∧
    stEquiv (move_path env p total label fs a src dst).2.1
      (move_path env q total label fs b src dst).2.1 ∧
    (move_path env p total label fs a src dst).2.2 =
      (move_path env q total label fs b src dst).2.2 := by
  unfold move_path
  split
  · exact ⟨rfl, h, rfl⟩
  · simp only []
    split
    · exact ⟨rfl, add_bytes_equiv p q total label a b _ h, rfl⟩
    · split
      · exact ⟨rfl, h, rfl⟩
      · obtain ⟨h1, h2⟩ := copy_equiv p q total label
          (ensure_dir (if existsFile fs dst = true then removeFile fs dst else fs) (pyDirname dst))
          a b src dst CHUNK h
        exact ⟨by rw [h1], h2, rfl⟩

theorem moveCompanions_equiv (env : Env) (p q : CbRaises) (total : Nat) (label : Str) :
    ∀ (comps : List Str) (fs : FS) (a b : PState) (destDir destStem : Str), stEquiv a b →
    (moveCompanions env p total label fs a comps destDir destStem).1 =
      (moveCompanions env q total label fs b comps destDir destStem).1 ∧
    stEquiv (moveCompanions env p total label fs a comps destDir destStem).2
      (moveCompanions env q total label fs b comps destDir destStem).2 := by
  intro comps
  induction comps with
  | nil => intro fs a b dd ds h; exact ⟨rfl, h⟩
  | cons c rest ih =>
    intro fs a b dd ds h
    unfold moveCompanions
    obtain ⟨h1, h2, h3⟩ := move_path_equiv env p q total label fs a b c
      (pyJoin2 dd (sanitize_filename (ds ++ (py_splitext (pyBasename c)).2))) h
    simp only []
    rw [← h3, ← h1]
    split
    · exact ⟨rfl, h2⟩
    · exact ih _ _ _ dd ds h2

theorem mvc_equiv (env : Env) (p q : CbRaises) (total : Nat) (label : Str) (fs : FS)
    (a b : PState) (item : MediaItem) (h : stEquiv a b) :
    (move_video_and_companions env p total label fs a item).1 =
      (move_video_and_companions env q total label fs b item).1 ∧
    stEquiv (move_video_and_companions env p total label fs a item).2.1
      (move_video_and_companions env q total label fs b item).2.1 ∧
    (move_video_and_companions env p total label fs a item).2.2 =
      (move_video_and_companions env q total label fs b item).2.2 := by
  unfold move_video_and_companions
  obtain ⟨h1, h2, h3⟩ := move_path_equiv env p q total label fs a b item.src_path item.dst_path h
  simp only []
  rw [← h3, ← h1]
  split
  · exact ⟨rfl, h2, rfl⟩
  · obtain ⟨h4, h5⟩ := moveCompanions_equiv env p q total label _ _ _ _
      (pyDirname item.dst_path) ((py_splitext (pyBasename item.dst_path)).1) h2
    exact ⟨h4, h5, rfl⟩

theorem performItems_equiv (env : Env) (p q : CbRaises) (total : Nat) :
    ∀ (plan : List MediaItem) (fs : FS) (a b : PState), stEquiv a b →
    (performItems env p total plan fs a).fs = (performItems env q total plan fs b).fs ∧
    stEquiv (performItems env p total plan fs a).st (performItems env q total plan fs b).st ∧
    (performItems env p total plan fs a).errors = (performItems env q total plan fs b).errors ∧
    (performItems env p total plan fs a).attempted =
      (performItems env q total plan fs b).attempted := by
  intro plan
  induction plan with
  | nil => intro fs a b h; exact ⟨rfl, h, rfl, rfl⟩
  | cons item rest ih =>
    intro fs a b h
    unfold performItems
    obtain ⟨h1, h2, h3⟩ := mvc_equiv env p q total (pyBasename item.dst_path)
      (ensure_dir fs item.dst_dir) a b item h
    obtain ⟨h4, h5, h6, h7⟩ := ih _ _ _ h2
    simp only []
    rw [← h3, ← h1]
    refine ⟨by rw [h4], h5, by rw [h6], by rw [h7]⟩

/-- Claim C10: if the caller-supplied progress callback raises, the
exception is swallowed inside the byte accounting: the resulting
filesystem, error list, running byte total, callback invocation trace
and attempted-item count are identical for any two callback behaviours
(in particular a raising one and a never-raising one). -/
theorem claim_C10 :
    ∀ (env : Env) (p q : CbRaises) (plan : List MediaItem) (total : Nat)
      (roots : Option (List Str)) (fs : FS),
    (perform_moves_bytes env p plan total roots fs).fs =
      (perform_moves_bytes env q plan total roots fs).fs ∧
    (perform_moves_bytes env p plan total roots fs).errors =
      (perform_moves_bytes env q plan total roots fs).errors ∧
    (perform_moves_bytes env p plan total roots fs).st.done =
      (perform_moves_bytes env q plan total roots fs).st.done ∧
    (perform_moves_bytes env p plan total roots fs).st.calls =
      (perform_moves_bytes env q plan total roots fs).st.calls ∧
    (perform_moves_bytes env p plan total roots fs).attempted =
      (perform_moves_bytes env q plan total roots fs).attempted := by
  intro env p q plan total roots fs
  obtain ⟨h1, ⟨h2a, h2b⟩, h3, h4⟩ :=
    performItems_equiv env p q total plan fs ⟨0, [], []⟩ ⟨0, [], []⟩ ⟨rfl, rfl⟩
  unfold perform_moves_bytes
  match roots with
  | none => exact ⟨h1, h3, h2a, h2b, h4⟩
  | some [] => exact ⟨h1, h3, h2a, h2b, h4⟩
  | some (r :: rs) =>
    simp only []
    rw [h1, h3]
    exact ⟨rfl, rfl, h2a, h2b, h4⟩

/-! ### Claim C2: when the copy fallback is taken -/

theorem move_path_used_copy (env : Env) (p : CbRaises) (total : Nat) (label : Str)
    (fs : FS) (st : PState) (src dst : Str) :
    (move_path env p total label fs st src dst).2.2.2 = true ↔
      (env.abspath src ≠ env.abspath dst ∧
       ∃ e, env.renameRes src dst = RenameRes.osErr e) := by
  unfold move_path
  split
  · rename_i h
    simp [h]
  · rename_i h
    simp only []
    split
    · rename_i hr
      simp [h, hr]
    · rename_i e hr
      split
      · simp [h, hr]
      · simp [h, hr]

theorem performItems_attempted (env : Env) (p : CbRaises) (total : Nat) :
    ∀ (plan : List MediaItem) (fs : FS) (st : PState),
      (performItems env p total plan fs st).attempted = plan.length := by
  intro plan
  induction plan with
  | nil => intro fs st; rfl
  | cons item rest ih =>
    intro fs st
    unfold performItems
    simp only [List.length_cons]
    rw [ih]

theorem move_path_copyfail (env : Env) (p : CbRaises) (total : Nat) (label : Str)
    (fs : FS) (st : PState) (src dst : Str)
    (h1 : env.abspath src ≠ env.abspath dst)
    (h2 : ∃ e, env.renameRes src dst = RenameRes.osErr e)
    (h3 : env.copyFails src dst = true) :
    (move_path env p total label fs st src dst).2.2.1 = some (pystr "copy error") := by
  obtain ⟨e, h2⟩ := h2
  unfold move_path
  rw [if_neg h1]
  simp only []
  rw [h2]
  simp [h3]

theorem mvc_err (env : Env) (p : CbRaises) (total : Nat) (label : Str)
    (fs : FS) (st : PState) (item : MediaItem) (e : Str)
    (h : (move_path env p total label fs st item.src_path item.dst_path).2.2.1 = some e) :
    (move_video_and_companions env p total label fs st item).2.2 = some e := by
  unfold move_video_and_companions
  simp only []
  split
  · rename_i e' heq
    rw [h] at heq
    injection heq with heq
    rw [heq]
  · rename_i heq
    rw [h] at heq
    exact absurd heq (by simp)

theorem performItems_err_mem (env : Env) (p : CbRaises) (total : Nat) (w : MediaItem)
    (habs : env.abspath w.src_path ≠ env.abspath w.dst_path)
    (hren : ∃ e, env.renameRes w.src_path w.dst_path = RenameRes.osErr e)
    (hcf : env.copyFails w.src_path w.dst_path = true) :
    ∀ (plan : List MediaItem) (fs : FS) (st : PState), w ∈ plan →
      moveErrMsg w (pystr "copy error") ∈ (performItems env p total plan fs st).errors := by
  intro plan
  induction plan with
  | nil => intro fs st h; exact absurd h (by simp)
  | cons item rest ih =>
    intro fs st hmem
    unfold performItems
    simp only []
    rcases List.mem_cons.mp hmem with heq | hrest
    · subst heq
      rw [mvc_err env p total (pyBasename w.dst_path) (ensure_dir fs w.dst_dir) st w
            (pystr "copy error")
            (move_path_copyfail env p total (pyBasename w.dst_path) _ st _ _ habs hren hcf)]
      simp
    · apply List.mem_append_right
      exact ih _ _ hrest

/-- Claim C2, counterexample: with a rename that fails with errno 13
(permission denied, not the cross-volume errno 18), the executor still
takes the streamed-copy fallback, and no per-item error is recorded for
the rename failure — refuting both the only-on-EXDEV condition and the
claim that every other rename failure is recorded as a per-item error. -/
theorem claim_C2_counterexample :
    (move_path envEacces neverRaise 0 [] fsOneVideo st0
        (pystr "/s/a.mkv") (pystr "/d/a.mkv")).2.2.2 = true ∧
    envEacces.renameRes (pystr "/s/a.mkv") (pystr "/d/a.mkv") = RenameRes.osErr 13 ∧
    (13 : Nat) ≠ EXDEV ∧
    (perform_moves_bytes envEacces neverRaise [itemOneVideo] 0 none fsOneVideo).errors = [] := by
  refine ⟨by decide, rfl, by decide, by decide⟩

/-- Claim C2, amended: the streamed-copy fallback is taken exactly when
the paths differ and the rename fails with any OSError (the errno test
of the source has no effect); every item of the batch is attempted
regardless of earlier failures; and a failure of the streamed copy is
recorded as a per-item error. -/
theorem claim_C2_amended :
    (∀ (env : Env) (p : CbRaises) (total : Nat) (label : Str) (fs : FS) (st : PState)
       (src dst : Str),
       (move_path env p total label fs st src dst).2.2.2 = true ↔
         (env.abspath src ≠ env.abspath dst ∧
          ∃ e, env.renameRes src dst = RenameRes.osErr e)) ∧
    (∀ (env : Env) (p : CbRaises) (plan : List MediaItem) (total : Nat)
       (roots : Option (List Str)) (fs : FS),
       (perform_moves_bytes env p plan total roots fs).attempted = plan.length) ∧
    (∀ (env : Env) (p : CbRaises) (plan : List MediaItem) (total : Nat)
       (roots : Option (List Str)) (fs : FS) (item : MediaItem), item ∈ plan →
       env.abspath item.src_path ≠ env.abspath item.dst_path →
       (∃ e, env.renameRes item.src_path item.dst_path = RenameRes.osErr e) →
       env.copyFails item.src_path item.dst_path = true →
       moveErrMsg item (pystr "copy error") ∈
         (perform_moves_bytes env p plan total roots fs).errors) := by
  refine ⟨move_path_used_copy, ?_, ?_⟩
  · intro env p plan total roots fs
    unfold perform_moves_bytes
    match roots with
    | none => exact performItems_attempted env p total plan fs _
    | some [] => exact performItems_attempted env p total plan fs _
    | some (r :: rs) => exact performItems_attempted env p total plan fs _
  · intro env p plan total roots fs item hmem habs hren hcf
    have hbase := performItems_err_mem env p total item habs hren hcf plan fs ⟨0, [], []⟩ hmem
    unfold perform_moves_bytes
    match roots with
    | none => exact hbase
    | some [] => exact hbase
    | some (r :: rs) =>
      simp only []
      exact List.mem_append_left _ hbase

/-- Claim C2, witness: the amended theorem applied to a concrete batch
whose single item fails during the streamed copy: the per-item error
message appears in the returned error list. -/
theorem claim_C2_witness :
    moveErrMsg itemOneVideo (pystr "copy error") ∈
      (perform_moves_bytes envCopyFail neverRaise [itemOneVideo] 0 none fsOneVideo).errors :=
  claim_C2_amended.2.2 envCopyFail neverRaise [itemOneVideo] 0 none fsOneVideo itemOneVideo
    (by simp) (by decide) ⟨EXDEV, rfl⟩ rfl

/-! ### Claim C4: lemmas on the file table and chunk accounting -/

theorem find?_filter_ne (p : Str) :
    ∀ (l : List (Str × Nat)),
      ((l.filter (fun e => e.1 ≠ p)).find? (fun e => e.1 = p)) = none := by
  intro l
  induction l with
  | nil => rfl
  | cons e l ih =>
    by_cases he : e.1 = p
    · rw [List.filter_cons, if_neg (by simp [he])]
      exact ih
    · rw [List.filter_cons, if_pos (by simp [he])]
      rw [List.find?_cons_of_neg _ (by simp [he])]
      exact ih

theorem find?_filter_keep (p q : Str) (hqp : q ≠ p) :
    ∀ (l : List (Str × Nat)),
      ((l.filter (fun e => e.1 ≠ p)).find? (fun e => e.1 = q)) =
        l.find? (fun e => e.1 = q) := by
  intro l
  induction l with
  | nil => rfl
  | cons e l ih =>
    by_cases hep : e.1 = p
    · have heq : e.1 ≠ q := fun h => hqp (h ▸ hep)
      rw [List.filter_cons, if_neg (by simp [hep])]
      rw [List.find?_cons_of_neg _ (by simp [heq])]
      exact ih
    · rw [List.filter_cons, if_pos (by simp [hep])]
      by_cases heq : e.1 = q
      · rw [List.find?_cons_of_pos _ (by simp [heq]),
            List.find?_cons_of_pos _ (by simp [heq])]
      · rw [List.find?_cons_of_neg _ (by simp [heq]),
            List.find?_cons_of_neg _ (by simp [heq])]
        exact ih

theorem find?_append_none {α : Type} (p : α → Bool) (l₁ l₂ : List α)
    (h : l₁.find? p = none) : (l₁ ++ l₂).find? p = l₂.find? p := by
  induction l₁ with
  | nil => rfl
  | cons a l ih =>
    cases ha : p a with
    | true =>
      rw [List.find?_cons_of_pos _ ha] at h
      exact absurd h (by simp)
    | false =>
      rw [List.find?_cons_of_neg _ (by simp [ha])] at h
      rw [List.cons_append, List.find?_cons_of_neg _ (by simp [ha])]
      exact ih h

theorem lookup_removeFile_self (fs : FS) (p : Str) :
    lookupFile (removeFile fs p) p = none := by
  unfold lookupFile removeFile
  rw [find?_filter_ne]
  rfl

theorem lookup_removeFile_ne (fs : FS) (p q : Str) (h : q ≠ p) :
    lookupFile (removeFile fs p) q = lookupFile fs q := by
  unfold lookupFile removeFile
  rw [find?_filter_keep p q h]

theorem lookup_setFile_self (fs : FS) (p : Str) (n : Nat) :
    lookupFile (setFile fs p n) p = some n := by
  unfold lookupFile setFile removeFile
  rw [find?_append_none _ _ _ (find?_filter_ne p _)]
  simp [List.find?]

theorem files_ensure_dir (fs : FS) (d : Str) : (ensure_dir fs d).files = fs.files := by
  unfold ensure_dir
  split <;> rfl

theorem lookup_ensure_dir (fs : FS) (d q : Str) :
    lookupFile (ensure_dir fs d) q = lookupFile fs q := by
  unfold lookupFile
  rw [files_ensure_dir]

theorem file_size_ensure_dir (fs : FS) (d q : Str) :
    file_size (ensure_dir fs d) q = file_size fs q := by
  unfold file_size
  rw [lookup_ensure_dir]

theorem mem_removeFile_files (fs : FS) (p : Str) (e : Str × Nat)
    (h : e ∈ (removeFile fs p).files) : e ∈ fs.files := by
  unfold removeFile at h
  exact (List.mem_filter.mp h).1

theorem mem_setFile_files (fs : FS) (p : Str) (n : Nat) (e : Str × Nat)
    (h : e ∈ (setFile fs p n).files) : e ∈ fs.files ∨ e = (p, n) := by
  unfold setFile at h
  rcases List.mem_append.mp h with h1 | h1
  · exact Or.inl (mem_removeFile_files fs p e h1)
  · simp only [List.mem_singleton] at h1
    exact Or.inr h1

theorem chunkReads_sum (chunk : Nat) (hc : 0 < chunk) :
    ∀ (f sz : Nat), sz ≤ f → (chunkReads chunk f sz).sum = sz := by
  intro f
  induction f with
  | zero =>
    intro sz h
    have : sz = 0 := Nat.le_zero.mp h
    subst this
    rfl
  | succ f ih =>
    intro sz h
    match sz with
    | 0 => rfl
    | sz + 1 =>
      have hrec := ih (sz + 1 - chunk) (by omega)
      unfold chunkReads
      rw [List.sum_cons, hrec, Nat.min_def]
      split <;> omega

theorem chunkList_sum (chunk sz : Nat) (hc : 0 < chunk) :
    (chunkList chunk sz).sum = sz :=
  chunkReads_sum chunk hc sz sz le_rfl

theorem foldl_add_bytes_calls (p : CbRaises) (total : Nat) (label : Str) :
    ∀ (ns : List Nat) (st : PState),
      (((ns.foldl (add_bytes p total label) st).calls).map (·.inc)) =
        st.calls.map (·.inc) ++ ns := by
  intro ns
  induction ns with
  | nil => intro st; simp
  | cons n ns ih =>
    intro st
    simp only [List.foldl_cons]
    rw [ih]
    unfold add_bytes
    simp only [List.map_append, List.map_cons, List.map_nil, List.append_assoc,
      List.singleton_append]

theorem mem_of_mem_getLast? {α : Type} {l : List α} {a : α} (h : a ∈ l.getLast?) : a ∈ l := by
  obtain ⟨hne, rfl⟩ := List.mem_getLast?_eq_getLast h
  exact List.getLast_mem hne

theorem add_bytes_mono (p : CbRaises) (total : Nat) (label : Str) (st : PState) (n : Nat)
    (h : callsMono st) : callsMono (add_bytes p total label st n) := by
  obtain ⟨h1, h2⟩ := h
  unfold callsMono add_bytes
  simp only []
  constructor
  · rw [List.map_append]
    apply List.Chain'.append h1 (by simp)
    intro x hx y hy
    simp only [List.map_cons, List.map_nil, List.head?_cons, Option.mem_def,
      Option.some.injEq] at hy
    subst hy
    have hx2 := mem_of_mem_getLast? hx
    simp only [List.mem_map] at hx2
    obtain ⟨c, hc, rfl⟩ := hx2
    exact le_trans (h2 c hc) (Nat.le_add_right _ _)
  · intro c hc
    rcases List.mem_append.mp hc with hcl | hcr
    · exact le_trans (h2 c hcl) (Nat.le_add_right _ _)
    · simp only [List.mem_singleton] at hcr
      subst hcr
      exact le_rfl

theorem foldl_add_bytes_mono (p : CbRaises) (total : Nat) (label : Str) :
    ∀ (ns : List Nat) (st : PState), callsMono st →
      callsMono (ns.foldl (add_bytes p total label) st) := by
  intro ns
  induction ns with
  | nil => intro st h; exact h
  | cons n ns ih =>
    intro st h
    exact ih _ (add_bytes_mono p total label st n h)

theorem copy_mono (p : CbRaises) (total : Nat) (label : Str) (fs : FS) (st : PState)
    (src dst : Str) (chunk : Nat) (h : callsMono st) :
    callsMono (copy_with_progress p total label fs st src dst chunk).2 := by
  unfold copy_with_progress
  exact foldl_add_bytes_mono p total label _ st h

theorem move_path_mono (env : Env) (p : CbRaises) (total : Nat) (label : Str) (fs : FS)
    (st : PState) (src dst : Str) (h : callsMono st) :
    callsMono (move_path env p total label fs st src dst).2.1 := by
  unfold move_path
  split
  · exact h
  · simp only []
    split
    · exact add_bytes_mono p total label st _ h
    · split
      · exact h
      · exact copy_mono p total label _ st src dst CHUNK h

theorem moveCompanions_mono (env : Env) (p : CbRaises) (total : Nat) (label : Str) :
    ∀ (comps : List Str) (fs : FS) (st : PState) (dd ds : Str), callsMono st →
      callsMono (moveCompanions env p total label fs st comps dd ds).2 := by
  intro comps
  induction comps with
  | nil => intro fs st dd ds h; exact h
  | cons c rest ih =>
    intro fs st dd ds h
    unfold moveCompanions
    simp only []
    split
    · exact move_path_mono env p total label fs st c _ h
    · exact ih _ _ dd ds (move_path_mono env p total label fs st c _ h)

theorem mvc_mono (env : Env) (p : CbRaises) (total : Nat) (label : Str) (fs : FS)
    (st : PState) (item : MediaItem) (h : callsMono st) :
    callsMono (move_video_and_companions env p total label fs st item).2.1 := by
  unfold move_video_and_companions
  simp only []
  split
  · exact move_path_mono env p total label fs st _ _ h
  · exact moveCompanions_mono env p total label _ _ _ _ _
      (move_path_mono env p total label fs st _ _ h)

theorem performItems_mono (env : Env) (p : CbRaises) (total : Nat) :
    ∀ (plan : List MediaItem) (fs : FS) (st : PState), callsMono st →
      callsMono (performItems env p total plan fs st).st := by
  intro plan
  induction plan with
  | nil => intro fs st h; exact h
  | cons item rest ih =>
    intro fs st h
    unfold performItems
    simp only []
    exact ih _ _ (mvc_mono env p total _ _ st item h)

theorem perform_moves_mono (env : Env) (p : CbRaises) (plan : List MediaItem) (total : Nat)
    (roots : Option (List Str)) (fs : FS) :
    callsMono (perform_moves_bytes env p plan total roots fs).st := by
  have hbase := performItems_mono env p total plan fs ⟨0, [], []⟩ ⟨by simp, by simp⟩
  unfold perform_moves_bytes
  match roots with
  | none => exact hbase
  | some [] => exact hbase
  | some (r :: rs) => exact hbase

theorem move_path_xdev (env : Env) (p : CbRaises) (total : Nat) (label : Str) (fs : FS)
    (st : PState) (src dst : Str) (n : Nat)
    (h1 : env.abspath src ≠ env.abspath dst)
    (h2 : env.renameRes src dst = RenameRes.osErr EXDEV)
    (h3 : env.copyFails src dst = false)
    (h4 : lookupFile fs src = some n)
    (h5 : lookupFile fs dst = none) :
    move_path env p total label fs st src dst =
      (removeFile (setFile (ensure_dir (ensure_dir fs (pyDirname dst)) (pyDirname dst)) dst n) src,
       (chunkList CHUNK n).foldl (add_bytes p total label) st, none, true) := by
  have hex : existsFile fs dst = false := by
    unfold existsFile
    rw [h5]
    rfl
  unfold move_path copy_with_progress
  rw [if_neg h1]
  simp only [hex, Bool.false_eq_true, if_false]
  rw [h2]
  simp only [h3, Bool.false_eq_true, if_false]
  have hsz : file_size (ensure_dir (ensure_dir fs (pyDirname dst)) (pyDirname dst)) src = n := by
    rw [file_size_ensure_dir, file_size_ensure_dir]
    unfold file_size
    rw [h4]
    rfl
  rw [hsz]

theorem companionEntries_nil (fs : FS) (dirS stemS : Str)
    (h : ∀ e ∈ fs.files, pyDirname e.1 = dirS →
      ¬((py_splitext (pyBasename e.1)).1 = stemS ∧
        COMPANION_EXTS.contains (py_lower (py_splitext (pyBasename e.1)).2) = true)) :
    companionEntries fs dirS stemS = [] := by
  unfold companionEntries
  rw [List.filterMap_eq_nil_iff]
  intro e he
  by_cases hd : pyDirname e.1 = dirS
  · rw [if_pos hd]
    simp only []
    apply if_neg
    intro hcond
    rw [Bool.and_eq_true] at hcond
    exact h e he hd ⟨by simpa using hcond.1, hcond.2⟩
  · rw [if_neg hd]

/-- Claim C4: when a single file is moved through the cross-volume
streamed-copy path (rename fails with EXDEV, the copy succeeds, no
companion files), the byte counts passed to the progress callback are
exactly the chunk sizes of the copy loop and sum to the source size;
after the move the source file no longer exists while the destination
holds the source size; no error is recorded; and, over any batch at all,
the running totals reported to the callback are non-decreasing. -/
theorem claim_C4 :
    (∀ (env : Env) (p : CbRaises) (total : Nat) (fs : FS) (it : MediaItem) (n : Nat),
      env.abspath it.src_path ≠ env.abspath it.dst_path →
      env.renameRes it.src_path it.dst_path = RenameRes.osErr EXDEV →
      env.copyFails it.src_path it.dst_path = false →
      lookupFile fs it.src_path = some n →
      lookupFile fs it.dst_path = none →
      pyDirname it.dst_path ≠ pyDirname it.src_path →
      (∀ e ∈ fs.files, pyDirname e.1 = pyDirname it.src_path →
        ¬((py_splitext (pyBasename e.1)).1 = (py_splitext (pyBasename it.src_path)).1 ∧
          COMPANION_EXTS.contains (py_lower (py_splitext (pyBasename e.1)).2) = true)) →
      ((perform_moves_bytes env p [it] total none fs).st.calls.map (·.inc) = chunkList CHUNK n ∧
       ((perform_moves_bytes env p [it] total none fs).st.calls.map (·.inc)).sum = n ∧
       lookupFile (perform_moves_bytes env p [it] total none fs).fs it.dst_path = some n ∧
       lookupFile (perform_moves_bytes env p [it] total none fs).fs it.src_path = none ∧
       (perform_moves_bytes env p [it] total none fs).errors = [])) ∧
    (∀ (env : Env) (p : CbRaises) (plan : List MediaItem) (total : Nat)
       (roots : Option (List Str)) (fs : FS),
      List.Chain' (· ≤ ·)
        (((perform_moves_bytes env p plan total roots fs).st.calls).map (·.done))) := by
  constructor
  · intro env p total fs it n h1 h2 h3 h4 h5 h6 h7
    have hsd : it.dst_path ≠ it.src_path := fun hh => h6 (by rw [hh])
    have hmv := move_path_xdev env p total (pyBasename it.dst_path) (ensure_dir fs it.dst_dir)
      ⟨0, [], []⟩ it.src_path it.dst_path n h1 h2 h3
      (by rw [lookup_ensure_dir]; exact h4) (by rw [lookup_ensure_dir]; exact h5)
    have hcomp : companionEntries
        (removeFile (setFile (ensure_dir (ensure_dir (ensure_dir fs it.dst_dir)
          (pyDirname it.dst_path)) (pyDirname it.dst_path)) it.dst_path n) it.src_path)
        (pyDirname it.src_path) ((py_splitext (pyBasename it.src_path)).1) = [] := by
      apply companionEntries_nil
      intro e he hd
      have he2 := mem_removeFile_files _ _ _ he
      rcases mem_setFile_files _ _ _ _ he2 with he3 | he3
      · rw [files_ensure_dir, files_ensure_dir, files_ensure_dir] at he3
        exact h7 e he3 hd
      · subst he3
        exact absurd hd h6
    have hmvc : move_video_and_companions env p total (pyBasename it.dst_path)
        (ensure_dir fs it.dst_dir) ⟨0, [], []⟩ it =
        (removeFile (setFile (ensure_dir (ensure_dir (ensure_dir fs it.dst_dir)
          (pyDirname it.dst_path)) (pyDirname it.dst_path)) it.dst_path n) it.src_path,
         (chunkList CHUNK n).foldl (add_bytes p total (pyBasename it.dst_path)) ⟨0, [], []⟩,
         none) := by
      unfold move_video_and_companions
      rw [hmv]
      simp only []
      rw [hcomp]
      rfl
    have hperf : perform_moves_bytes env p [it] total none fs =
        ⟨removeFile (setFile (ensure_dir (ensure_dir (ensure_dir fs it.dst_dir)
          (pyDirname it.dst_path)) (pyDirname it.dst_path)) it.dst_path n) it.src_path,
         (chunkList CHUNK n).foldl (add_bytes p total (pyBasename it.dst_path)) ⟨0, [], []⟩,
         [], 1⟩ := by
      unfold perform_moves_bytes performItems
      simp only []
      rw [hmvc]
      rfl
    rw [hperf]
    have hcalls : (((chunkList CHUNK n).foldl (add_bytes p total (pyBasename it.dst_path))
        (⟨0, [], []⟩ : PState)).calls).map (·.inc) = chunkList CHUNK n := by
      rw [foldl_add_bytes_calls]
      simp
    refine ⟨hcalls, ?_, ?_, ?_, rfl⟩
    · rw [hcalls]
      exact chunkList_sum CHUNK n (by decide)
    · rw [lookup_removeFile_ne _ _ _ hsd]
      exact lookup_setFile_self _ _ _
    · exact lookup_removeFile_self _ _
  · intro env p plan total roots fs
    exact (perform_moves_mono env p plan total roots fs).1

/-- Claim C4, witness: the theorem applied to a concrete 2 MiB + 7 byte
file moved across volumes, whose copy reports three chunks. -/
theorem claim_C4_witness :
    ((perform_moves_bytes envXdev neverRaise [itemOneVideo] 0 none fsOneVideo).st.calls.map
        (·.inc) = chunkList CHUNK (2 * 1024 * 1024 + 7) ∧
     (((perform_moves_bytes envXdev neverRaise [itemOneVideo] 0 none fsOneVideo).st.calls.map
        (·.inc)).sum = 2 * 1024 * 1024 + 7) ∧
     lookupFile (perform_moves_bytes envXdev neverRaise [itemOneVideo] 0 none fsOneVideo).fs
        itemOneVideo.dst_path = some (2 * 1024 * 1024 + 7) ∧
     lookupFile (perform_moves_bytes envXdev neverRaise [itemOneVideo] 0 none fsOneVideo).fs
        itemOneVideo.src_path = none ∧
     (perform_moves_bytes envXdev neverRaise [itemOneVideo] 0 none fsOneVideo).errors = []) :=
  claim_C4.1 envXdev neverRaise 0 fsOneVideo itemOneVideo (2 * 1024 * 1024 + 7)
    (by decide) rfl rfl (by decide) (by decide) (by decide) (by decide)

/-! ### Claim C5: lemmas on path normal forms and the sweep -/

theorem py_lower_append (a b : Str) : py_lower (a ++ b) = py_lower a ++ py_lower b :=
  List.map_append py_lower_char a b

theorem path_norm_wf (d : Str) (h : wfDirPath d) : path_norm d = py_lower d := by
  obtain ⟨h1, h2, h3⟩ := h
  unfold path_norm
  have hstep : d.reverse.dropWhile (fun c => c = '/' || c = '\\') = d.reverse := by
    cases hr : d.reverse with
    | nil =>
      exact absurd (by simpa using congrArg List.reverse hr) h1
    | cons a t =>
      have hha : d.getLast? = some a := by
        rw [← List.head?_reverse d, hr]
        rfl
      have ha2 : a ≠ '/' := fun he => h2 (he ▸ hha)
      have ha3 : a ≠ '\\' := fun he => h3 (he ▸ hha)
      rw [List.dropWhile_cons, if_neg (by simp [ha2, ha3])]
  rw [hstep, List.reverse_reverse]

theorem underDir_parts {p d : Str} (h : underDir p d = true) : ∃ t, p = d ++ '/' :: t := by
  unfold underDir at h
  rw [ List.isPrefixOf_iff_prefix] at h
  obtain ⟨t, ht⟩ := h
  exact ⟨t, by rw [← ht]; simp⟩

theorem underDir_of_parts {p d : Str} (t : Str) (h : p = d ++ '/' :: t) :
    underDir p d = true := by
  unfold underDir
  rw [ List.isPrefixOf_iff_prefix]
  exact ⟨t, by rw [h]; simp⟩

theorem underDir_trans {p d c : Str} (h1 : underDir p d = true) (h2 : underDir d c = true) :
    underDir p c = true := by
  obtain ⟨t1, ht1⟩ := underDir_parts h1
  obtain ⟨t2, ht2⟩ := underDir_parts h2
  exact underDir_of_parts (t2 ++ '/' :: t1) (by rw [ht1, ht2]; simp)

theorem is_within_trans_under (c d r : Str) (hwc : wfDirPath c) (hwd : wfDirPath d)
    (hu : underDir d c = true) (hw : is_within c r = true) : is_within d r = true := by
  obtain ⟨t, ht⟩ := underDir_parts hu
  have hnd : path_norm d = py_lower c ++ '/' :: py_lower t := by
    rw [path_norm_wf d hwd, ht, py_lower_append]
    rfl
  have hnc : path_norm c = py_lower c := path_norm_wf c hwc
  unfold is_within at hw ⊢
  rw [Bool.or_eq_true] at hw ⊢
  right
  rw [ List.isPrefixOf_iff_prefix]
  rcases hw with hw | hw
  · have heq : path_norm c = path_norm r := by simpa using hw
    refine ⟨py_lower t, ?_⟩
    rw [hnd, ← hnc, heq]
    simp
  · rw [ List.isPrefixOf_iff_prefix] at hw
    apply hw.trans
    rw [hnd, ← hnc]
    exact ⟨'/' :: py_lower t, by simp⟩

theorem mem_insertByLen {x y : Str} : ∀ {l : List Str}, x ∈ insertByLen y l → x = y ∨ x ∈ l := by
  intro l
  induction l with
  | nil => intro h; exact Or.inl (by simpa [insertByLen] using h)
  | cons z zs ih =>
    intro h
    unfold insertByLen at h
    split at h
    · rcases List.mem_cons.mp h with h1 | h1
      · exact Or.inl h1
      · exact Or.inr h1
    · rcases List.mem_cons.mp h with h1 | h1
      · exact Or.inr (by simp [h1])
      · rcases ih h1 with h2 | h2
        · exact Or.inl h2
        · exact Or.inr (by simp [h2])

theorem mem_sortByNormLenDesc {x : Str} : ∀ {l : List Str}, x ∈ sortByNormLenDesc l → x ∈ l := by
  intro l
  induction l with
  | nil => intro h; simp [sortByNormLenDesc] at h
  | cons y ys ih =>
    intro h
    unfold sortByNormLenDesc at h
    simp only [List.foldr_cons] at h
    rcases mem_insertByLen h with h1 | h1
    · simp [h1]
    · exact List.mem_cons_of_mem _ (ih h1)
theorem cleanupGo_only_if (roots : List Str) (fs0 : FS) :
    ∀ (cands : List Str) (fsCur : FS) (d : Str),
      (∀ e ∈ fs0.files, hasVideoExt e.1 = true → e ∈ fsCur.files) →
      (∀ c ∈ cands, wfDirPath c) →
      wfDirPath d →
      d ∈ fsCur.dirs → d ∉ (cleanupGo roots cands fsCur).dirs →
      dir_has_videos fs0 d = false ∧ ∃ r ∈ roots, is_within d r = true := by
  intro cands
  induction cands with
  | nil =>
    intro fsCur d hsub hwfc hwfd hin hout
    exact absurd hin hout
  | cons c rest ih =>
    intro fsCur d hsub hwfc hwfd hin hout
    have hwfc_tail : ∀ x ∈ rest, wfDirPath x := fun x hx => hwfc x (List.mem_cons_of_mem _ hx)
    have hwfc_head : wfDirPath c := hwfc c (List.mem_cons_self _ _)
    unfold cleanupGo at hout
    split at hout
    · exact ih fsCur d hsub hwfc_tail hwfd hin hout
    · split at hout
      · exact ih fsCur d hsub hwfc_tail hwfd hin hout
      · split at hout
        · exact ih fsCur d hsub hwfc_tail hwfd hin hout
        · rename_i hwithin hisdir hnovid
          by_cases hd : d ∈ (rmtree fsCur c).dirs
          · refine ih (rmtree fsCur c) d ?_ hwfc_tail hwfd hd hout
            intro e he hv
            have hec := hsub e he hv
            unfold rmtree
            apply List.mem_filter.mpr
            refine ⟨hec, ?_⟩
            simp only [decide_eq_true_eq, Bool.not_eq_eq_eq_not, Bool.not_true]
            intro hu
            apply hnovid
            unfold dir_has_videos
            rw [List.any_eq_true]
            exact ⟨e, hec, by rw [Bool.and_eq_true]; exact ⟨hu, hv⟩⟩
          · have hdc : d = c ∨ underDir d c = true := by
              by_contra hcon
              push_neg at hcon
              apply hd
              unfold rmtree
              apply List.mem_filter.mpr
              refine ⟨hin, ?_⟩
              simp [hcon.1, hcon.2]
            constructor
            · rw [Bool.eq_false_iff]
              intro hvid
              unfold dir_has_videos at hvid
              rw [List.any_eq_true] at hvid
              obtain ⟨e, he0, hcond⟩ := hvid
              rw [Bool.and_eq_true] at hcond
              have hec := hsub e he0 hcond.2
              have hunder_c : underDir e.1 c = true := by
                rcases hdc with hdc | hdc
                · rw [← hdc]; exact hcond.1
                · exact underDir_trans hcond.1 hdc
              apply hnovid
              unfold dir_has_videos
              rw [List.any_eq_true]
              exact ⟨e, hec, by rw [Bool.and_eq_true]; exact ⟨hunder_c, hcond.2⟩⟩
            · have hany : roots.any (fun rt => is_within c rt) = true := by
                by_contra hno
                exact hwithin (by simpa using hno)
              rw [List.any_eq_true] at hany
              obtain ⟨r, hr, hcr⟩ := hany
              rcases hdc with hdc | hdc
              · exact ⟨r, hr, hdc ▸ hcr⟩
              · exact ⟨r, hr, is_within_trans_under c d r hwfc_head hwfd hdc hcr⟩

/-- Claim C5: the cleanup sweep removes a candidate directory only if it
lies under a configured source root and its recursive contents include
no file with a recognized video extension; in particular a directory
whose only video-extension file is a sample-pattern file is never
removed, while a directory left holding only a non-video companion file
is removed together with its contents. -/
theorem claim_C5 :
    (∀ (fs : FS) (plan : List MediaItem) (roots : List Str) (d : Str),
       (∀ c ∈ cleanupCandidates plan, wfDirPath c) →
       wfDirPath d →
       d ∈ fs.dirs →
       d ∉ (cleanup_dirs_after_moves fs plan roots).1.dirs →
       dir_has_videos fs d = false ∧
         ∃ r ∈ roots.filter (fun r => r ≠ []), is_within d r = true) ∧
    (cleanup_dirs_after_moves fsCompanionOnly [itemCompanionOnly] [pystr "/r"] =
       (⟨[], [pystr "/r"]⟩, []) ∧
     (reSearch SAMPLE_PATTERNS (pystr "sample.mkv")).isSome = true ∧
     hasVideoExt (pystr "/r/sub2/sample.mkv") = true ∧
     cleanup_dirs_after_moves fsSampleLeft [itemSampleLeft] [pystr "/r"] =
       (fsSampleLeft, [])) := by
  constructor
  · intro fs plan roots d hwfc hwfd hin hout
    unfold cleanup_dirs_after_moves at hout
    simp only [] at hout
    exact cleanupGo_only_if _ fs _ fs d (fun e he _ => he)
      (fun c hc => hwfc c (mem_sortByNormLenDesc hc)) hwfd hin hout
  · refine ⟨by decide, by decide, by decide, by decide⟩

/-- Claim C5, witness: the theorem applied to the companion-only
scenario, showing the removed directory indeed had no video under it and
lay under the configured root. -/
theorem claim_C5_witness :
    dir_has_videos fsCompanionOnly (pystr "/r/sub") = false ∧
    ∃ r ∈ ([pystr "/r"].filter (fun r => r ≠ [])),
      is_within (pystr "/r/sub") r = true :=
  claim_C5.1 fsCompanionOnly [itemCompanionOnly] [pystr "/r"] (pystr "/r/sub")
    (by decide) (by decide) (by decide) (by decide)

/-! ### Claim C7: the selection tree invariant -/

theorem stateOf_setDescN (b : Bool) (t : SNode) : stateOf (setDescN b t) = some b := by
  cases t
  rfl

theorem fIsNil_setDescF (b : Bool) (f : SForest) : fIsNil (setDescF b f) = fIsNil f := by
  cases f <;> rfl

theorem faggregate_all (b : Bool) (f : SForest) (hne : fIsNil f = false)
    (hall : fAllState (some b) f = true) : faggregate f = some b := by
  cases f with
  | fnil => simp [fIsNil] at hne
  | fcons t ts =>
    unfold fAllState at hall
    rw [Bool.and_eq_true] at hall
    obtain ⟨h1, h2⟩ := hall
    have h1' : stateOf t = some b := by simpa using h1
    cases b with
    | true =>
      unfold faggregate
      rw [if_pos (by unfold fAllState; rw [Bool.and_eq_true]; exact ⟨by simp [h1'], h2⟩)]
    | false =>
      unfold faggregate
      rw [if_neg, if_pos (by unfold fAllState; rw [Bool.and_eq_true]; exact ⟨by simp [h1'], h2⟩)]
      intro hcon
      unfold fAllState at hcon
      rw [Bool.and_eq_true] at hcon
      have := hcon.1
      simp [h1'] at this

mutual
theorem setDescN_wf (b : Bool) : ∀ t : SNode, wfN t = true →
    wfN (setDescN b t) = true ∧ consN (setDescN b t) = true
  | .node k s cs => by
    intro hwf
    unfold wfN at hwf
    rw [Bool.and_eq_true] at hwf
    obtain ⟨hshape, hrest⟩ := hwf
    obtain ⟨hw2, hc2, hall2⟩ := setDescF_wf b cs hrest
    constructor
    · unfold setDescN wfN
      rw [Bool.and_eq_true]
      refine ⟨?_, hw2⟩
      rw [fIsNil_setDescF]
      exact hshape
    · unfold setDescN consN
      rw [Bool.and_eq_true]
      refine ⟨?_, hc2⟩
      by_cases hk : k = pystr "file"
      · simp [hk]
      · simp only [hk, if_neg, ite_false]
        have hnn : fIsNil cs = false := by
          rw [if_neg hk] at hshape
          simpa using hshape
        have := faggregate_all b (setDescF b cs) (by rw [fIsNil_setDescF]; exact hnn) hall2
        simp [this]
theorem setDescF_wf (b : Bool) : ∀ f : SForest, wfF f = true →
    wfF (setDescF b f) = true ∧ consF (setDescF b f) = true ∧
      fAllState (some b) (setDescF b f) = true
  | .fnil => by
    intro h
    exact ⟨rfl, rfl, rfl⟩
  | .fcons t ts => by
    intro h
    unfold wfF at h
    rw [Bool.and_eq_true] at h
    obtain ⟨h1, h2⟩ := h
    obtain ⟨hw1, hc1⟩ := setDescN_wf b t h1
    obtain ⟨hw2, hc2, hall2⟩ := setDescF_wf b ts h2
    refine ⟨?_, ?_, ?_⟩
    · unfold setDescF wfF
      rw [Bool.and_eq_true]
      exact ⟨hw1, hw2⟩
    · unfold setDescF consF
      rw [Bool.and_eq_true]
      exact ⟨hc1, hc2⟩
    · unfold setDescF fAllState
      rw [Bool.and_eq_true]
      exact ⟨by simp [stateOf_setDescN], hall2⟩
end


theorem fget_facts : ∀ (f : SForest) (i : Nat) (c : SNode), fget f i = some c →
    (wfF f = true → wfN c = true) ∧ (consF f = true → consN c = true) ∧ fIsNil f = false
  | .fnil, i, c => by
    intro h
    simp [fget] at h
  | .fcons t ts, 0, c => by
    intro h
    simp only [fget] at h
    injection h with h
    subst h
    refine ⟨?_, ?_, rfl⟩
    · intro hw
      simp only [wfF, Bool.and_eq_true] at hw
      exact hw.1
    · intro hc
      simp only [consF, Bool.and_eq_true] at hc
      exact hc.1
  | .fcons t ts, n + 1, c => by
    intro h
    simp only [fget] at h
    obtain ⟨ha, hb, _⟩ := fget_facts ts n c h
    refine ⟨?_, ?_, rfl⟩
    · intro hw
      simp only [wfF, Bool.and_eq_true] at hw
      exact ha hw.2
    · intro hc
      simp only [consF, Bool.and_eq_true] at hc
      exact hb hc.2

theorem fset_facts : ∀ (f : SForest) (i : Nat) (u : SNode),
    (wfF f = true → wfN u = true → wfF (fset f i u) = true) ∧
    (consF f = true → consN u = true → consF (fset f i u) = true) ∧
    fIsNil (fset f i u) = fIsNil f
  | .fnil, i, u => ⟨fun h _ => h, fun h _ => h, rfl⟩
  | .fcons t ts, 0, u => by
    refine ⟨?_, ?_, rfl⟩
    · intro hw hu
      simp only [fset, wfF, Bool.and_eq_true] at hw ⊢
      exact ⟨hu, hw.2⟩
    · intro hc hu
      simp only [fset, consF, Bool.and_eq_true] at hc ⊢
      exact ⟨hu, hc.2⟩
  | .fcons t ts, n + 1, u => by
    obtain ⟨ha, hb, _⟩ := fset_facts ts n u
    refine ⟨?_, ?_, rfl⟩
    · intro hw hu
      simp only [fset, wfF, Bool.and_eq_true] at hw ⊢
      exact ⟨hw.1, ha hw.2 hu⟩
    · intro hc hu
      simp only [fset, consF, Bool.and_eq_true] at hc ⊢
      exact ⟨hc.1, hb hc.2 hu⟩

theorem fget_fset_self : ∀ (f : SForest) (i : Nat) (u c : SNode),
    fget f i = some c → fget (fset f i u) i = some u
  | .fnil, i, u, c => by
    intro h
    simp [fget] at h
  | .fcons t ts, 0, u, c => by
    intro h
    rfl
  | .fcons t ts, n + 1, u, c => by
    intro h
    simp only [fget] at h
    simp only [fset, fget]
    exact fget_fset_self ts n u c h

theorem toggleAtN_pres : ∀ (path : List Nat) (t : SNode) (ns : Option Bool),
    wfN t = true → consN t = true →
    wfN (toggleAtN t path ns) = true ∧ consN (toggleAtN t path ns) = true := by
  intro path
  induction path with
  | nil =>
    intro t ns hw hc
    simp only [toggleAtN]
    exact setDescN_wf _ t hw
  | cons i rest ih =>
    intro t ns hw hc
    match t with
    | .node k s cs =>
      simp only [toggleAtN]
      cases hg : fget cs i with
      | none => exact ⟨hw, hc⟩
      | some c =>
        simp only []
        have hwcs : wfF cs = true := by
          simp only [wfN, Bool.and_eq_true] at hw
          exact hw.2
        have hccs : consF cs = true := by
          simp only [consN, Bool.and_eq_true] at hc
          exact hc.2
        obtain ⟨hgw, hgc, hgnn⟩ := fget_facts cs i c hg
        obtain ⟨htw, htc⟩ := ih c ns (hgw hwcs) (hgc hccs)
        obtain ⟨hsw, hsc, hsn⟩ := fset_facts cs i (toggleAtN c rest ns)
        have hknf : k ≠ pystr "file" := by
          intro hk
          simp only [wfN, Bool.and_eq_true] at hw
          rw [if_pos hk] at hw
          have := hw.1
          simp [hgnn] at this
        constructor
        · simp only [wfN, Bool.and_eq_true]
          refine ⟨?_, hsw hwcs htw⟩
          rw [if_neg hknf, hsn]
          simp only [wfN, Bool.and_eq_true] at hw
          rw [if_neg hknf] at hw
          exact hw.1
        · simp only [consN, Bool.and_eq_true]
          refine ⟨?_, hsc hccs htc⟩
          rw [if_neg hknf]
          simp

theorem toggleF_pres : ∀ (path : List Nat) (f : SForest) (ns : Option Bool),
    wfF f = true → consF f = true →
    wfF (toggleF f path ns) = true ∧ consF (toggleF f path ns) = true := by
  intro path f ns hw hc
  match path with
  | [] => exact ⟨hw, hc⟩
  | i :: rest =>
    simp only [toggleF]
    cases hg : fget f i with
    | none => exact ⟨hw, hc⟩
    | some t =>
      simp only []
      obtain ⟨hgw, hgc, _⟩ := fget_facts f i t hg
      obtain ⟨htw, htc⟩ := toggleAtN_pres rest t ns (hgw hw) (hgc hc)
      obtain ⟨hsw, hsc, _⟩ := fset_facts f i (toggleAtN t rest ns)
      exact ⟨hsw hw htw, hsc hc htc⟩

theorem stateAtN_toggle : ∀ (path : List Nat) (t : SNode) (st : Option Bool) (ns : Option Bool),
    stateAtN t path = some st →
    stateAtN (toggleAtN t path ns) path = some (some (toggleTarget ns st)) := by
  intro path
  induction path with
  | nil =>
    intro t st ns h
    simp only [stateAtN] at h ⊢
    injection h with h
    subst h
    simp only [toggleAtN]
    rw [stateOf_setDescN]
  | cons i rest ih =>
    intro t st ns h
    match t with
    | .node k s cs =>
      simp only [stateAtN, childrenOf] at h
      cases hg : fget cs i with
      | none => rw [hg] at h; exact absurd h (by simp)
      | some c =>
        rw [hg] at h
        simp only [] at h
        simp only [toggleAtN]
        rw [hg]
        simp only [stateAtN, childrenOf]
        rw [fget_fset_self cs i _ c hg]
        exact ih c st ns h

theorem stateAtF_toggle : ∀ (path : List Nat) (f : SForest) (st : Option Bool) (ns : Option Bool),
    stateAtF f path = some st →
    stateAtF (toggleF f path ns) path = some (some (toggleTarget ns st)) := by
  intro path f st ns h
  match path with
  | [] => simp [stateAtF] at h
  | i :: rest =>
    simp only [stateAtF] at h ⊢
    cases hg : fget f i with
    | none => rw [hg] at h; exact absurd h (by simp)
    | some t =>
      rw [hg] at h
      simp only [] at h
      simp only [toggleF]
      rw [hg]
      simp only []
      rw [fget_fset_self f i _ t hg]
      exact stateAtN_toggle rest t st ns h

theorem forestOfList_good : ∀ (l : List SNode),
    (∀ t ∈ l, wfN t = true ∧ consN t = true ∧ stateOf t = some true) →
    wfF (forestOfList l) = true ∧ consF (forestOfList l) = true ∧
      fAllState (some true) (forestOfList l) = true ∧
      fIsNil (forestOfList l) = l.isEmpty := by
  intro l
  induction l with
  | nil => intro h; exact ⟨rfl, rfl, rfl, rfl⟩
  | cons t ts ih =>
    intro h
    obtain ⟨hw, hc, hs⟩ := h t (by simp)
    obtain ⟨ihw, ihc, ihall, _⟩ := ih (fun x hx => h x (by simp [hx]))
    refine ⟨?_, ?_, ?_, rfl⟩
    · simp only [forestOfList, wfF, Bool.and_eq_true]
      exact ⟨hw, ihw⟩
    · simp only [forestOfList, consF, Bool.and_eq_true]
      exact ⟨hc, ihc⟩
    · simp only [forestOfList, fAllState, Bool.and_eq_true]
      exact ⟨by simp [hs], ihall⟩

theorem node_good (k : Str) (hk : ¬ k = pystr "file") (l : List SNode) (hne : l ≠ [])
    (h : ∀ t ∈ l, wfN t = true ∧ consN t = true ∧ stateOf t = some true) :
    wfN (.node k (some true) (forestOfList l)) = true ∧
    consN (.node k (some true) (forestOfList l)) = true ∧
    stateOf (.node k (some true) (forestOfList l)) = some true := by
  obtain ⟨hw, hc, hall, hnil⟩ := forestOfList_good l h
  have hnn : fIsNil (forestOfList l) = false := by
    rw [hnil]
    simpa using hne
  refine ⟨?_, ?_, rfl⟩
  · simp only [wfN, Bool.and_eq_true]
    refine ⟨?_, hw⟩
    rw [if_neg hk, hnn]
    simp
  · simp only [consN, Bool.and_eq_true]
    refine ⟨?_, hc⟩
    rw [if_neg hk]
    rw [faggregate_all true _ hnn hall]
    simp

theorem fileNode_good :
    wfN fileNode = true ∧ consN fileNode = true ∧ stateOf fileNode = some true := by
  refine ⟨rfl, rfl, rfl⟩

theorem mem_insSortIns {α : Type} (lt : α → α → Bool) (y : α) :
    ∀ (l : List α) (x : α), x ∈ insSortIns lt y l → x = y ∨ x ∈ l := by
  intro l
  induction l with
  | nil => intro x h; exact Or.inl (by simpa [insSortIns] using h)
  | cons z zs ih =>
    intro x h
    simp only [insSortIns] at h
    split at h
    · rcases List.mem_cons.mp h with h1 | h1
      · exact Or.inr (by simp [h1])
      · rcases ih x h1 with h2 | h2
        · exact Or.inl h2
        · exact Or.inr (by simp [h2])
    · rcases List.mem_cons.mp h with h1 | h1
      · exact Or.inl h1
      · exact Or.inr h1

theorem mem_insSort {α : Type} (lt : α → α → Bool) :
    ∀ (l : List α) (x : α), x ∈ insSort lt l → x ∈ l := by
  intro l
  induction l with
  | nil => intro x h; simp [insSort] at h
  | cons z zs ih =>
    intro x h
    simp only [insSort] at h
    rcases mem_insSortIns lt z _ x h with h1 | h1
    · simp [h1]
    · exact List.mem_cons_of_mem _ (ih x h1)

theorem insSortIns_length {α : Type} (lt : α → α → Bool) (y : α) :
    ∀ (l : List α), (insSortIns lt y l).length = l.length + 1 := by
  intro l
  induction l with
  | nil => rfl
  | cons z zs ih =>
    simp only [insSortIns]
    split
    · simp only [List.length_cons, ih]
    · simp

theorem insSort_length {α : Type} (lt : α → α → Bool) :
    ∀ (l : List α), (insSort lt l).length = l.length := by
  intro l
  induction l with
  | nil => rfl
  | cons z zs ih =>
    simp only [insSort, insSortIns_length, ih, List.length_cons]

theorem insSort_ne_nil {α : Type} (lt : α → α → Bool) (l : List α) (h : l ≠ []) :
    insSort lt l ≠ [] := by
  intro hc
  apply h
  have := insSort_length lt l
  rw [hc] at this
  exact List.length_eq_zero.mp this.symm

theorem seasonNode_good (items : List MediaItem) (hne : items ≠ []) :
    wfN (seasonNode items) = true ∧ consN (seasonNode items) = true ∧
    stateOf (seasonNode items) = some true := by
  unfold seasonNode
  apply node_good _ (by decide)
  · intro hc
    have := List.map_eq_nil_iff.mp hc
    exact insSort_ne_nil _ _ hne this
  · intro t ht
    rw [List.mem_map] at ht
    obtain ⟨_, _, rfl⟩ := ht
    exact fileNode_good

theorem showNode_good (items : List MediaItem) (hne : items ≠ []) :
    wfN (showNode items) = true ∧ consN (showNode items) = true ∧
    stateOf (showNode items) = some true := by
  unfold showNode
  apply node_good _ (by decide)
  · intro hc
    have h1 := List.map_eq_nil_iff.mp hc
    have h2 : (items.map seasonKey).dedup = [] := by
      have := insSort_length (fun a b => a < b) (items.map seasonKey).dedup
      rw [h1] at this
      exact List.length_eq_zero.mp this.symm
    have h3 := (List.dedup_eq_nil _).mp h2
    exact hne (List.map_eq_nil_iff.mp h3)
  · intro t ht
    rw [List.mem_map] at ht
    obtain ⟨sn, hsn, rfl⟩ := ht
    apply seasonNode_good
    have hsn2 := mem_insSort _ _ _ hsn
    rw [List.mem_dedup] at hsn2
    rw [List.mem_map] at hsn2
    obtain ⟨it, hit, hk⟩ := hsn2
    exact List.ne_nil_of_mem (List.mem_filter.mpr ⟨hit, by simp [hk]⟩)

theorem populate_good (plan : List MediaItem) :
    wfF (populate_tree plan) = true ∧ consF (populate_tree plan) = true := by
  unfold populate_tree
  simp only []
  refine (fun h => ⟨h.1, h.2.1⟩) (forestOfList_good _ ?_)
  intro t ht
  rcases List.mem_append.mp ht with h1 | h1
  · by_cases hm : plan.filter (fun it => it.content_type = pystr "movie") ≠ []
    · rw [if_pos hm] at h1
      simp only [List.mem_singleton] at h1
      subst h1
      apply node_good _ (by decide)
      · intro hc
        exact insSort_ne_nil _ _ hm (List.map_eq_nil_iff.mp hc)
      · intro x hx
        rw [List.mem_map] at hx
        obtain ⟨_, _, rfl⟩ := hx
        exact fileNode_good
    · rw [if_neg hm] at h1
      exact absurd h1 (by simp)
  · by_cases hs : plan.filter (fun it => it.content_type = pystr "series") ≠ []
    · rw [if_pos hs] at h1
      simp only [List.mem_singleton] at h1
      subst h1
      apply node_good _ (by decide)
      · intro hc
        have h2 : ((plan.filter (fun it => it.content_type = pystr "series")).map showKey).dedup
            = [] := by
          have := insSort_length (fun a b => strLt (py_lower a) (py_lower b))
            ((plan.filter (fun it => it.content_type = pystr "series")).map showKey).dedup
          rw [List.map_eq_nil_iff.mp hc] at this
          exact List.length_eq_zero.mp this.symm
        exact hs (List.map_eq_nil_iff.mp ((List.dedup_eq_nil _).mp h2))
      · intro x hx
        rw [List.mem_map] at hx
        obtain ⟨ttl, httl, rfl⟩ := hx
        apply showNode_good
        have h2 := mem_insSort _ _ _ httl
        rw [List.mem_dedup, List.mem_map] at h2
        obtain ⟨it, hit, hk⟩ := h2
        exact List.ne_nil_of_mem (List.mem_filter.mpr ⟨hit, by simp [hk]⟩)
    · rw [if_neg hs] at h1
      exact absurd h1 (by simp)

theorem foldToggles_pres (ops : List (List Nat × Option Bool)) :
    ∀ (f : SForest), wfF f = true → consF f = true →
    wfF (ops.foldl (fun g op => toggleF g op.1 op.2) f) = true ∧
    consF (ops.foldl (fun g op => toggleF g op.1 op.2) f) = true := by
  induction ops with
  | nil => intro f hw hc; exact ⟨hw, hc⟩
  | cons op rest ih =>
    intro f hw hc
    simp only [List.foldl_cons]
    obtain ⟨hw2, hc2⟩ := toggleF_pres op.1 f op.2 hw hc
    exact ih _ hw2 hc2

/-- Claim C7: after the selection tree is built from any plan and after
any sequence of toggle operations (with or without an explicit target
state at any node path), the tree satisfies the invariant that every
non-file node holds the aggregate of its children (all-checked gives
checked, all-unchecked gives unchecked, mixed gives the third state)
and file nodes never hold the mixed state; moreover a toggle sets the
target node to the toggled state, where no explicit state flips checked
and unchecked and the mixed state toggles to checked. -/
theorem claim_C7 :
    (∀ (plan : List MediaItem) (ops : List (List Nat × Option Bool)),
      wfF (ops.foldl (fun g op => toggleF g op.1 op.2) (populate_tree plan)) = true ∧
      consF (ops.foldl (fun g op => toggleF g op.1 op.2) (populate_tree plan)) = true) ∧
    (∀ (f : SForest) (path : List Nat) (st ns : Option Bool),
      stateAtF f path = some st →
      stateAtF (toggleF f path ns) path = some (some (toggleTarget ns st))) := by
  constructor
  · intro plan ops
    obtain ⟨hw, hc⟩ := populate_good plan
    exact foldToggles_pres ops _ hw hc
  · intro f path st ns h
    exact stateAtF_toggle path f st ns h

/-- Claim C7, witness: toggling the checked movies category of a
one-item tree without an explicit state flips it to unchecked. -/
theorem claim_C7_witness :
    stateAtF (toggleF (populate_tree [itemOneVideo]) [0] none) [0] = some (some false) :=
  claim_C7.2 (populate_tree [itemOneVideo]) [0] (some true) none (by decide)
